import Mathlib

/-!
# Parallelized marching squares (`tema1_par.c`)

A shallow embedding of `thread_function`, `update_image` and the set-up done by `main`,
followed by the properties of the work partition, the grid sampler, the contour stamper
and the rescaler.

Conventions of the embedding.

* C `int` values that are never negative in the program (sizes, indices, thread ids) are `Nat`,
  without overflow (the program's indices stay below `2048 * 2048`); `x - 1` is the truncated
  subtraction, which differs from C only for an extent 0.  An `unsigned char` is `Fin 256` and
  every conversion to `unsigned char` is an explicit `% 256`.
* A heap buffer (`scaled_image->data`, `grid`) is a total map from locations to contents, paired
  with a ghost record of the thread ids that stored to each location.  The source image, the
  contour map and the working buffers are distinct objects, as `main` allocates them.
* The three `pthread_barrier_wait` calls cut `thread_function` into four phases.  A phase run by
  `T` workers is the workers `0 .. T-1` running their slice of the phase one after the other.
* `thread_id * (double)N / num_threads` converted to `int` is the floor of the exact quotient
  (the product and the quotient are exact enough in `double` for every extent below `2^53`).
* `sample_bicubic`, `read_ppm` and `write_ppm` live in `helpers.c`, which is not part of the
  sources: the sampler is a parameter, and a call of `write_ppm` is recorded in the state.
* Undefined behaviour is not given a result.  The contour map has 16 entries; a read
  `contour_map[k]` with `k ≥ 16` sets the flag `fault` of the state, after which the run does
  nothing more and hands no image to `write_ppm`.  A negative thread count makes the two arrays
  of lines 192-193 of negative size; `main` then has no exit code.
-/

namespace MarchingSquares

/-! ## Data model -/

/-- An `unsigned char`. -/
abbrev uchar := Fin 256

/-- Modelled from the spec: `helpers.h` is not part of the sources; a pixel is an RGB triple of
8-bit unsigned channels, accessed in the code as `.red`, `.green`, `.blue`. -/
structure ppm_pixel where
  red : uchar
  green : uchar
  blue : uchar
deriving DecidableEq

/-- Modelled from the spec: `helpers.h` is not part of the sources; an image has two extents `x`
and `y` and a flat `data` array, accessed in the code as `->x`, `->y`, `->data[index]`. -/
structure ppm_image where
  x : Nat
  y : Nat
  data : Nat → ppm_pixel

/-- The `#define`d constants of the program. -/
structure constants where
  STEP : Nat
  SIGMA : Nat
  RESCALE_X : Nat
  RESCALE_Y : Nat

/-- The values the source defines: `STEP 8`, `SIGMA 200`, `RESCALE_X 2048`, `RESCALE_Y 2048`. -/
def program_constants : constants :=
  { STEP := 8, SIGMA := 200, RESCALE_X := 2048, RESCALE_Y := 2048 }

/-- The number of entries of the contour map, `CONTOUR_CONFIG_COUNT`. -/
def CONTOUR_CONFIG_COUNT : Nat := 16

/-- One store to a buffer: the thread that performs it, the location and the value stored. -/
structure store_op (κ α : Type) where
  tid : Nat
  key : κ
  value : α

/-- A heap buffer: its contents, and for each location the threads that stored to it
(most recent first). -/
structure buffer (κ α : Type) where
  val : κ → α
  writers : κ → List Nat

/-- The assignment `buf[key] = value` executed by thread `tid`. -/
def buffer.store {κ α : Type} [DecidableEq κ] (b : buffer κ α) (tid : Nat) (key : κ) (value : α) :
    buffer κ α :=
  { val := fun k => if k = key then value else b.val k
    writers := fun k => if k = key then tid :: b.writers k else b.writers k }

/-- A buffer holding `f` that nobody has written yet. -/
def buffer.fresh {κ α : Type} (f : κ → α) : buffer κ α :=
  { val := f, writers := fun _ => [] }

/-- The loop `for (int i = lo; i < hi; i++) body`, as a state transformer. -/
def for_loop {σ : Type} (lo hi : Nat) (body : Nat → σ → σ) (s : σ) : σ :=
  (List.range' lo (hi - lo)).foldl (fun acc i => body i acc) s

/-! ## Work partition -/

/-- The first index of a worker's slice:
`int start = thread_id * (double)N / num_threads;` (lines 93, 120, 122). -/
def slice_start (thread_id N num_threads : Nat) : Nat :=
  thread_id * N / num_threads

/-- The index after the last one of a worker's slice:
`int end = MIN((thread_id + 1) * (double)N / num_threads, N);` (lines 94, 121, 123). -/
def slice_end (thread_id N num_threads : Nat) : Nat :=
  min ((thread_id + 1) * N / num_threads) N

/-- The worker whose slice contains the index `k`, among `T` workers sharing the extent `N`. -/
def slice_owner (k N T : Nat) : Nat :=
  ((k + 1) * T - 1) / N

/-! ## Program state -/

/-- The working image `scaled_image`: its extents and its pixel buffer. -/
structure work_image where
  x : Nat
  y : Nat
  data : buffer Nat ppm_pixel

/-- The fields of `struct thread_data` that `thread_function` reads and never writes.  The
pointers `scaled_image` and `grid` designate the shared buffers held in `state`.  The array
`contour_map` has the `CONTOUR_CONFIG_COUNT = 16` entries `contour_map 0 .. contour_map 15`
(lines 22-32); the values of the field at larger arguments stand for nothing and are never
used (see `atlas_entry`). -/
structure thread_data where
  thread_id : Nat
  num_threads : Nat
  step_x : Nat
  step_y : Nat
  p : Nat
  q : Nat
  image : ppm_image
  contour_map : Nat → ppm_image

/-- The memory shared by the workers: the working image, the grid (`grid[i][j]` is the location
`(i, j)`), the calls of `write_ppm` made so far (calling thread and image handed over), and
whether the run has been stopped by a read outside the contour map (line 169). -/
structure state where
  scaled_image : work_image
  grid : buffer (Nat × Nat) uchar
  output : List (Nat × ppm_image)
  fault : Bool

/-! ## Phase 1: rescale (lines 89-113) -/

/-- The call `memcpy(dst, src, n * sizeof(ppm_pixel))` made by thread `tid`. -/
def memcpy (tid : Nat) (dst : buffer Nat ppm_pixel) (src : Nat → ppm_pixel) (n : Nat) :
    buffer Nat ppm_pixel :=
  for_loop 0 n (fun k data => data.store tid k (src k)) dst

/-- Lines 89-113 of `thread_function`.  `sample_bicubic` is the external sampler; its float
arguments `(float)i / (float)(x - 1)` are the exact quotients (for an extent 1 the divisor is 0
and the quotient is 0 here, NaN in C), and the three channel stores of one pixel are one
store. -/
def rescale_worker (c : constants) (sample_bicubic : ppm_image → ℚ → ℚ → ppm_pixel)
    (d : thread_data) (s : state) : state :=
  if d.image.x > c.RESCALE_X ∨ d.image.y > c.RESCALE_Y then
    let start_rescale := slice_start d.thread_id s.scaled_image.x d.num_threads
    let end_rescale := slice_end d.thread_id s.scaled_image.x d.num_threads
    let data :=
      for_loop start_rescale end_rescale (fun i data =>
        for_loop 0 s.scaled_image.y (fun j data =>
          let u : ℚ := (i : ℚ) / ((s.scaled_image.x : ℚ) - 1)
          let v : ℚ := (j : ℚ) / ((s.scaled_image.y : ℚ) - 1)
          let sample := sample_bicubic d.image u v
          data.store d.thread_id (i * s.scaled_image.y + j) sample) data)
        s.scaled_image.data
    { s with scaled_image := { s.scaled_image with data := data } }
  else
    if d.thread_id = 0 then
      let data :=
        memcpy d.thread_id s.scaled_image.data d.image.data (d.image.x * d.image.y)
      { s with scaled_image := { s.scaled_image with data := data } }
    else s

/-! ## Phase 2: sample the grid (lines 118-160) -/

/-- Lines 129, 142, 153:
`unsigned char curr_color = (curr_pixel.red + curr_pixel.green + curr_pixel.blue) / 3;`. -/
def curr_color (curr_pixel : ppm_pixel) : Nat :=
  ((curr_pixel.red.val + curr_pixel.green.val + curr_pixel.blue.val) / 3) % 256

/-- Lines 131-135, 144-148, 155-159: the cell `key` of the grid receives 0 when
`curr_color > SIGMA` and 1 otherwise. -/
def threshold_store (c : constants) (tid : Nat) (grid : buffer (Nat × Nat) uchar)
    (key : Nat × Nat) (curr_pixel : ppm_pixel) : buffer (Nat × Nat) uchar :=
  if curr_color curr_pixel > c.SIGMA then
    grid.store tid key 0
  else
    grid.store tid key 1

/-- Lines 118-160 of `thread_function`. -/
def sample_worker (c : constants) (d : thread_data) (s : state) : state :=
  let start_p := slice_start d.thread_id d.p d.num_threads
  let end_p := slice_end d.thread_id d.p d.num_threads
  let start_q := slice_start d.thread_id d.q d.num_threads
  let end_q := slice_end d.thread_id d.q d.num_threads
  let grid1 :=
    for_loop start_p end_p (fun i grid =>
      for_loop 0 d.q (fun j grid =>
        let curr_pixel :=
          s.scaled_image.data.val (i * d.step_x * s.scaled_image.y + j * d.step_y)
        threshold_store c d.thread_id grid (i, j) curr_pixel) grid) s.grid
  let grid2 :=
    for_loop start_p end_p (fun i grid =>
      let curr_pixel :=
        s.scaled_image.data.val (i * d.step_x * s.scaled_image.y + s.scaled_image.x - 1)
      threshold_store c d.thread_id grid (i, d.q) curr_pixel) grid1
  let grid3 :=
    for_loop start_q end_q (fun j grid =>
      let curr_pixel :=
        s.scaled_image.data.val ((s.scaled_image.x - 1) * s.scaled_image.y + j * d.step_y)
      threshold_store c d.thread_id grid (d.p, j) curr_pixel) grid2
  { s with grid := grid3 }

/-! ## Phase 3: march the squares (lines 39-50, 165-171) -/

/-- The function `update_image` (lines 39-50), called by thread `tid`.  The three channel stores
of one pixel are one store. -/
def update_image (tid : Nat) (image : work_image) (contour : ppm_image) (x y : Nat) :
    work_image :=
  let data :=
    for_loop 0 contour.x (fun i data =>
      for_loop 0 contour.y (fun j data =>
        let contour_pixel_index := contour.x * i + j
        let image_pixel_index := (x + i) * image.y + y + j
        data.store tid image_pixel_index (contour.data contour_pixel_index)) data)
      image.data
  { image with data := data }

/-- Line 168: `unsigned char k = 8 * grid[i][j] + 4 * grid[i][j + 1] + 2 * grid[i + 1][j + 1]
+ 1 * grid[i + 1][j];`. -/
def config_code (grid : Nat × Nat → uchar) (i j : Nat) : Nat :=
  (8 * (grid (i, j)).val + 4 * (grid (i, j + 1)).val + 2 * (grid (i + 1, j + 1)).val
    + 1 * (grid (i + 1, j)).val) % 256

/-- The read `contour_map[k]` of line 169: the array has `CONTOUR_CONFIG_COUNT` entries, and an
index beyond them is outside the array. -/
def atlas_entry (contour_map : Nat → ppm_image) (k : Nat) : Option ppm_image :=
  if k < CONTOUR_CONFIG_COUNT then some (contour_map k) else none

/-- Lines 168-169 for the cell `(i, j)`.  A read outside the contour map is undefined behaviour
(the program reads a stray pointer and crashes): it stops the run, and a stopped run does
nothing more. -/
def march_cell (d : thread_data) (i j : Nat) (s : state) : state :=
  if s.fault then s
  else
    let k := config_code s.grid.val i j
    match atlas_entry d.contour_map k with
    | some contour =>
      let scaled_image :=
        update_image d.thread_id s.scaled_image contour (i * d.step_x) (j * d.step_y)
      { s with scaled_image := scaled_image }
    | none => { s with fault := true }

/-- Lines 165-171 of `thread_function`. -/
def march_worker (d : thread_data) (s : state) : state :=
  let start_p := slice_start d.thread_id d.p d.num_threads
  let end_p := slice_end d.thread_id d.p d.num_threads
  for_loop start_p end_p (fun i acc =>
    for_loop 0 d.q (fun j acc => march_cell d i j acc) acc) s

/-! ## Phase 4: write the output (lines 176-180) -/

/-- Lines 176-180 of `thread_function`: thread 0 hands the working image to `write_ppm`. -/
def write_worker (d : thread_data) (s : state) : state :=
  if d.thread_id = 0 then
    let written : ppm_image :=
      { x := s.scaled_image.x, y := s.scaled_image.y, data := s.scaled_image.data.val }
    { s with output := s.output ++ [(d.thread_id, written)] }
  else s

/-! ## The workers together -/

/-- The thread data `main` hands to worker `t` of `T` (lines 218-230): the shared fields, with
`thread_id = t` and `num_threads = T`. -/
def worker_data (d : thread_data) (t T : Nat) : thread_data :=
  { d with thread_id := t, num_threads := T }

/-- One phase run by the `T` workers `0 .. T-1`, one after the other (the loop of lines 218-233
of `main` creates them). -/
def run_phase (T : Nat) (phase : thread_data → state → state) (d : thread_data) (s : state) :
    state :=
  for_loop 0 T (fun t acc => phase (worker_data d t T) acc) s

/-- The four phases of `thread_function`, separated by the three barriers, run by `T` workers.
A run stopped by a read outside the contour map does not reach the fourth phase. -/
def run_threads (c : constants) (sample_bicubic : ppm_image → ℚ → ℚ → ppm_pixel) (T : Nat)
    (d : thread_data) (s : state) : state :=
  let marched :=
    run_phase T march_worker d
      (run_phase T (sample_worker c) d
        (run_phase T (rescale_worker c sample_bicubic) d s))
  if marched.fault then marched else run_phase T write_worker d marched

/-- The thread data `main` prepares (lines 199-230) for the source image `image` and the
contour map read by `init_contour_map`. -/
def main_thread_data (c : constants) (image : ppm_image) (contour_map : Nat → ppm_image) :
    thread_data :=
  { thread_id := 0, num_threads := 0, step_x := c.STEP, step_y := c.STEP,
    p := c.RESCALE_X / c.STEP, q := c.RESCALE_Y / c.STEP,
    image := image, contour_map := contour_map }

/-- The buffers `main` allocates (lines 207-216): `malloc` leaves their contents arbitrary, here
`scaled_init` and `grid_init`. -/
def main_state (c : constants) (scaled_init : Nat → ppm_pixel) (grid_init : Nat × Nat → uchar) :
    state :=
  { scaled_image := { x := c.RESCALE_X, y := c.RESCALE_Y, data := buffer.fresh scaled_init },
    grid := buffer.fresh grid_init, output := [], fault := false }

/-! ## Store lists

The stores a loop performs, in order; used to reason about the loops. -/

/-- The stores of `ops` performed in order on `b`. -/
def apply_ops {κ α : Type} [DecidableEq κ] (ops : List (store_op κ α)) (b : buffer κ α) :
    buffer κ α :=
  ops.foldl (fun acc w => acc.store w.tid w.key w.value) b

/-- The indices `lo, lo+1, .., hi-1` a `for` loop runs through. -/
def loop_range (lo hi : Nat) : List Nat := List.range' lo (hi - lo)

/-- The value stored by `threshold_store`: 0 when `curr_color > SIGMA`, 1 otherwise. -/
def threshold (c : constants) (curr_pixel : ppm_pixel) : uchar :=
  if curr_color curr_pixel > c.SIGMA then 0 else 1

/-- The stores of the first loop nest of the sampling phase (lines 125-137). -/
def sample_ops_interior (c : constants) (d : thread_data) (img : work_image) :
    List (store_op (Nat × Nat) uchar) :=
  (loop_range (slice_start d.thread_id d.p d.num_threads)
      (slice_end d.thread_id d.p d.num_threads)).flatMap (fun i =>
    (loop_range 0 d.q).flatMap (fun j =>
      [{ tid := d.thread_id, key := (i, j),
         value := threshold c (img.data.val (i * d.step_x * img.y + j * d.step_y)) }]))

/-- The stores of the second loop of the sampling phase (lines 139-149). -/
def sample_ops_last_column (c : constants) (d : thread_data) (img : work_image) :
    List (store_op (Nat × Nat) uchar) :=
  (loop_range (slice_start d.thread_id d.p d.num_threads)
      (slice_end d.thread_id d.p d.num_threads)).flatMap (fun i =>
    [{ tid := d.thread_id, key := (i, d.q),
       value := threshold c (img.data.val (i * d.step_x * img.y + img.x - 1)) }])

/-- The stores of the third loop of the sampling phase (lines 150-160). -/
def sample_ops_last_row (c : constants) (d : thread_data) (img : work_image) :
    List (store_op (Nat × Nat) uchar) :=
  (loop_range (slice_start d.thread_id d.q d.num_threads)
      (slice_end d.thread_id d.q d.num_threads)).flatMap (fun j =>
    [{ tid := d.thread_id, key := (d.p, j),
       value := threshold c (img.data.val ((img.x - 1) * img.y + j * d.step_y)) }])

/-- The stores of one worker in the sampling phase, in order. -/
def sample_ops (c : constants) (d : thread_data) (img : work_image) :
    List (store_op (Nat × Nat) uchar) :=
  sample_ops_interior c d img ++ sample_ops_last_column c d img ++ sample_ops_last_row c d img

/-- The stores of the workers `0 .. T-1` in the sampling phase, in order. -/
def sample_phase_ops (c : constants) (T : Nat) (d : thread_data) (img : work_image) :
    List (store_op (Nat × Nat) uchar) :=
  (loop_range 0 T).flatMap (fun t => sample_ops c (worker_data d t T) img)

/-- The stores of one call of `update_image` on an image whose field `y` is `Y`. -/
def update_image_ops (tid Y : Nat) (contour : ppm_image) (x y : Nat) :
    List (store_op Nat ppm_pixel) :=
  (loop_range 0 contour.x).flatMap (fun i =>
    (loop_range 0 contour.y).flatMap (fun j =>
      [{ tid := tid, key := (x + i) * Y + y + j, value := contour.data (contour.x * i + j) }]))

/-- The stores of thread `tid` stamping the cell `(i, j)` (lines 168-169): those of
`update_image` when the code of the cell is inside the contour map, none otherwise. -/
def cell_ops (tid : Nat) (d : thread_data) (grid : Nat × Nat → uchar) (Y i j : Nat) :
    List (store_op Nat ppm_pixel) :=
  if config_code grid i j < CONTOUR_CONFIG_COUNT then
    update_image_ops tid Y (d.contour_map (config_code grid i j)) (i * d.step_x) (j * d.step_y)
  else []

/-- The stores of thread `tid` stamping the cells of the grid row `i` (lines 167-170). -/
def march_row_ops (tid : Nat) (d : thread_data) (grid : Nat × Nat → uchar) (Y i : Nat) :
    List (store_op Nat ppm_pixel) :=
  (loop_range 0 d.q).flatMap (fun j => cell_ops tid d grid Y i j)

/-- The stores of one worker in the stamping phase, in order, when no read outside the contour
map stops it; a stopped worker performs some of them only (see `stores_within`). -/
def march_ops (d : thread_data) (grid : Nat × Nat → uchar) (Y : Nat) :
    List (store_op Nat ppm_pixel) :=
  (loop_range (slice_start d.thread_id d.p d.num_threads)
      (slice_end d.thread_id d.p d.num_threads)).flatMap (march_row_ops d.thread_id d grid Y)

/-- The stores of the workers `0 .. T-1` in the stamping phase, in order. -/
def march_phase_ops (T : Nat) (d : thread_data) (grid : Nat × Nat → uchar) (Y : Nat) :
    List (store_op Nat ppm_pixel) :=
  (loop_range 0 T).flatMap (fun t => march_ops (worker_data d t T) grid Y)

/-- The locations and values of a list of stores, without the threads performing them. -/
def erase_tid {κ α : Type} (ops : List (store_op κ α)) : List (κ × α) :=
  ops.map (fun w => (w.key, w.value))

/-- The state `s` with `data` as the pixel buffer of the working image. -/
def state.with_data (s : state) (data : buffer Nat ppm_pixel) : state :=
  { s with scaled_image := { s.scaled_image with data := data } }

/-- The stores of thread `tid` rescaling the row `i` of a working image of extents `X`, `Y`
(lines 98-106). -/
def rescale_row_ops (sample_bicubic : ppm_image → ℚ → ℚ → ppm_pixel) (tid : Nat)
    (image : ppm_image) (X Y i : Nat) : List (store_op Nat ppm_pixel) :=
  (loop_range 0 Y).flatMap (fun j =>
    [{ tid := tid, key := i * Y + j,
       value := sample_bicubic image ((i : ℚ) / ((X : ℚ) - 1)) ((j : ℚ) / ((Y : ℚ) - 1)) }])

/-- The stores of `memcpy`. -/
def memcpy_ops (tid : Nat) (src : Nat → ppm_pixel) (n : Nat) : List (store_op Nat ppm_pixel) :=
  (loop_range 0 n).flatMap (fun k => [{ tid := tid, key := k, value := src k }])

/-- The stores of one worker in the rescale phase, in order. -/
def rescale_ops (c : constants) (sample_bicubic : ppm_image → ℚ → ℚ → ppm_pixel)
    (d : thread_data) (X Y : Nat) : List (store_op Nat ppm_pixel) :=
  if d.image.x > c.RESCALE_X ∨ d.image.y > c.RESCALE_Y then
    (loop_range (slice_start d.thread_id X d.num_threads)
        (slice_end d.thread_id X d.num_threads)).flatMap
      (rescale_row_ops sample_bicubic d.thread_id d.image X Y)
  else if d.thread_id = 0 then
    memcpy_ops d.thread_id d.image.data (d.image.x * d.image.y)
  else []

/-- The stores of the workers `0 .. T-1` in the rescale phase, in order. -/
def rescale_phase_ops (c : constants) (sample_bicubic : ppm_image → ℚ → ℚ → ppm_pixel)
    (T : Nat) (d : thread_data) (X Y : Nat) : List (store_op Nat ppm_pixel) :=
  (loop_range 0 T).flatMap (fun t => rescale_ops c sample_bicubic (worker_data d t T) X Y)

/-- Two states hold the same data: the same working image (extents and pixels), the same grid
contents and the same calls of `write_ppm`; only the records of who wrote may differ. -/
def same_content (s₁ s₂ : state) : Prop :=
  s₁.scaled_image.x = s₂.scaled_image.x ∧ s₁.scaled_image.y = s₂.scaled_image.y ∧
  s₁.scaled_image.data.val = s₂.scaled_image.data.val ∧ s₁.grid.val = s₂.grid.val ∧
  s₁.output = s₂.output ∧ s₁.fault = s₂.fault

/-- The cells stamped by the workers `0 .. T-1`, in order, each with the worker stamping it:
`(t, i, j)` is the cell `(i, j)` stamped by worker `t`. -/
def march_cells (T : Nat) (d : thread_data) : List (Nat × Nat × Nat) :=
  (loop_range 0 T).flatMap (fun t =>
    (loop_range (slice_start t d.p T) (slice_end t d.p T)).flatMap (fun i =>
      (loop_range 0 d.q).map (fun j => (t, i, j))))

/-- The state `s'` is the state `s` after some of the stores of `full`, in their order, on the
working image; the extents, the grid and the output are those of `s`. -/
def stores_within (full : List (store_op Nat ppm_pixel)) (s s' : state) : Prop :=
  ∃ ops, List.Sublist ops full ∧
    s'.scaled_image = { s.scaled_image with data := apply_ops ops s.scaled_image.data } ∧
    s'.grid = s.grid ∧ s'.output = s.output

/-! ## Small concrete inputs -/

/-- A white pixel. -/
def white : ppm_pixel := { red := 255, green := 255, blue := 255 }

/-- A black pixel. -/
def black : ppm_pixel := { red := 0, green := 0, blue := 0 }

/-- A pixel whose luminance is exactly 200. -/
def grey200 : ppm_pixel := { red := 200, green := 200, blue := 200 }

/-- An image without pixels. -/
def empty_image : ppm_image := { x := 0, y := 0, data := fun _ => white }

/-- Thread data for a working image of 2 rows and 2 columns sampled with step 2:
`p = 2 / 2 = 1`, `q = 2 / 2 = 1`. -/
def data_2x2 : thread_data :=
  { thread_id := 0, num_threads := 1, step_x := 2, step_y := 2, p := 1, q := 1,
    image := empty_image, contour_map := fun _ => empty_image }

/-- A working image of 2 rows and 2 columns filled with `px`, with every grid cell holding the
byte 255 left there by `malloc`. -/
def state_2x2 (px : ppm_pixel) : state :=
  { scaled_image := { x := 2, y := 2, data := buffer.fresh (fun _ => px) },
    grid := buffer.fresh (fun _ => 255), output := [], fault := false }

/-- Thread data for a working image of 2 rows and 4 columns sampled with step 2:
`p = 2 / 2 = 1`, `q = 4 / 2 = 2`. -/
def data_2x4 : thread_data :=
  { thread_id := 0, num_threads := 1, step_x := 2, step_y := 2, p := 1, q := 2,
    image := empty_image, contour_map := fun _ => empty_image }

/-- A working image of 2 rows and 4 columns (pixel `(r, c)` at index `r * 4 + c`) whose last
column `c = 3` is black and whose other pixels are white. -/
def state_2x4 : state :=
  { scaled_image :=
      { x := 2, y := 4, data := buffer.fresh (fun k => if k % 4 = 3 then black else white) },
    grid := buffer.fresh (fun _ => 255), output := [], fault := false }

/-- The grid `[[1, 0], [0, 0]]`: the cell `(0, 0)` holds 1, every other cell 0. -/
def grid_1000 : Nat × Nat → uchar :=
  fun k => if k = (0, 0) then 1 else 0

/-- The grey pixel whose three channels are `k`. -/
def grey (k : Nat) : ppm_pixel :=
  { red := Fin.ofNat k, green := Fin.ofNat k, blue := Fin.ofNat k }

/-- A contour of `x = 2` rows and `y = 3` columns, row-major: its pixel `(r, c)`, at index
`r * 3 + c`, is the grey level `r * 3 + c`. -/
def contour_2x3 : ppm_image :=
  { x := 2, y := 3, data := fun k => grey k }

/-- A white working image of 2 rows and 3 columns. -/
def image_2x3 : work_image :=
  { x := 2, y := 3, data := buffer.fresh (fun _ => white) }

/-- A stand-in for the bicubic sampler on concrete runs: black at the coordinates `(1, 1)`,
elsewhere the first pixel of the source. -/
def corner_sampler : ppm_image → ℚ → ℚ → ppm_pixel :=
  fun image u v => if u = 1 ∧ v = 1 then black else image.data 0

/-- Constants for runs on a working image of 2 rows and 2 columns. -/
def constants_2x2 : constants :=
  { STEP := 2, SIGMA := 200, RESCALE_X := 2, RESCALE_Y := 2 }

/-- Thread data for a white source of extents 3 and 3, larger than the 2 x 2 working image. -/
def data_3x3_source : thread_data :=
  { thread_id := 0, num_threads := 1, step_x := 2, step_y := 2, p := 1, q := 1,
    image := { x := 3, y := 3, data := fun _ => white }, contour_map := fun _ => empty_image }

/-! ## Concrete runs of the skip branch -/

/-- A source of extents 2 and 2, row-major: its pixel `(r, c)`, at index `r * 2 + c`, is the
grey level `r * 2 + c`. -/
def source_2x2 : ppm_image :=
  { x := 2, y := 2, data := fun k => grey k }

/-- The rescale phase of the program (constants 2048 x 2048, step 8) run by two workers on the
2 x 2 source, the working buffer holding white pixels and the grid the byte 255 beforehand. -/
def skip_run_2x2 : state :=
  run_phase 2 (rescale_worker program_constants corner_sampler)
    (main_thread_data program_constants source_2x2 (fun _ => empty_image))
    (main_state program_constants (fun _ => white) (fun _ => 255))

/-- The constants of the all-white scenario: `SIGMA = 200`, step 2, target 4 x 4. -/
def constants_4x4 : constants :=
  { STEP := 2, SIGMA := 200, RESCALE_X := 4, RESCALE_Y := 4 }

/-- A source of extents 4 and 4 whose every pixel is `(255, 255, 255)`. -/
def white_source_4x4 : ppm_image :=
  { x := 4, y := 4, data := fun _ => white }

/-- The thread data of the all-white scenario; the contour map entry `k` is a 2 x 2 block of
grey level `k`. -/
def all_white_data : thread_data :=
  main_thread_data constants_4x4 white_source_4x4
    (fun k => { x := 2, y := 2, data := fun _ => grey k })

/-- The all-white scenario after the rescale and sampling phases run by two workers, the working
buffer holding black pixels and every grid cell the byte 255 beforehand. -/
def all_white_sampled : state :=
  run_phase 2 (sample_worker constants_4x4) all_white_data
    (run_phase 2 (rescale_worker constants_4x4 corner_sampler) all_white_data
      (main_state constants_4x4 (fun _ => black) (fun _ => 255)))

/-! ## The function `main` (lines 185-244) -/

/-- What a run of `main` leaves behind: its return value (`none` when undefined behaviour keeps
`main` from returning), the number of `pthread_create` calls and the calls of `write_ppm`
(calling thread and image handed over). -/
structure main_result where
  exit_code : Option Nat
  threads_created : Nat
  output : List (Nat × ppm_image)

/-- The function `main`.  `argc` counts the program name; `num_threads` is the value of
`atoi(argv[3])`, `image` the result of `read_ppm(argv[1])`, `contour_map` the result of
`init_contour_map()`, and `scaled_init`, `grid_init` the contents `malloc` leaves in the two
buffers.  With fewer than three arguments `main` returns 1 (lines 186-189).  A negative
`num_threads` gives the arrays `threads` and `thread_data_array` (lines 192-193) a negative
size, which is undefined behaviour: no worker, no output and no exit code.  Otherwise the loops
`for (i = 0; i < num_threads; i++)` run `num_threads` times (not at all for 0, where the two
arrays have no element), the value of `pthread_barrier_init` is not looked at, and `main`
returns 0 (line 243) unless the workers were stopped by a read outside the contour map. -/
def main (c : constants) (sample_bicubic : ppm_image → ℚ → ℚ → ppm_pixel) (argc : Nat)
    (num_threads : Int) (image : ppm_image) (contour_map : Nat → ppm_image)
    (scaled_init : Nat → ppm_pixel) (grid_init : Nat × Nat → uchar) : main_result :=
  if argc < 4 then
    { exit_code := some 1, threads_created := 0, output := [] }
  else if num_threads < 0 then
    { exit_code := none, threads_created := 0, output := [] }
  else
    let final :=
      run_threads c sample_bicubic num_threads.toNat (main_thread_data c image contour_map)
        (main_state c scaled_init grid_init)
    let exit_code := if final.fault then none else some 0
    { exit_code := exit_code, threads_created := num_threads.toNat, output := final.output }

/-- The normalized coordinate of lines 99-100, `(float)i / (float)(n - 1)`, as an exact
quotient. -/
def norm_coord (i n : Nat) : ℚ :=
  (i : ℚ) / ((n : ℚ) - 1)

/-! ## The program's configuration on a white working image -/

/-- The thread data of the program (constants 2048 x 2048, step 8, so `p = q = 256`) for the
white 4 x 4 source. -/
def program_data : thread_data :=
  main_thread_data program_constants white_source_4x4 (fun _ => empty_image)

/-- The buffers of the program with a white working image and every grid cell holding the byte
255 left there by `malloc`. -/
def program_white_state : state :=
  main_state program_constants (fun _ => white) (fun _ => 255)

/-- The thread data of the program for the white 4 x 4 source, with a contour map whose entry
`k` is an 8 x 8 block of grey level `k`. -/
def program_stamp_data : thread_data :=
  main_thread_data program_constants white_source_4x4
    (fun k => { x := 8, y := 8, data := fun _ => grey k })

/-- An image of 3 rows and 3 columns of grey level 200: one of the things a pointer read beyond
the 16 entries of the contour map may designate. -/
def stray_entry_3x3 : ppm_image :=
  { x := 3, y := 3, data := fun _ => grey 200 }

/-! ## Locations read by the phases -/

/-- The indices of `scaled_image->data` that one worker reads in the sampling phase (lines 127,
140, 151), in order; `X` and `Y` are the fields `x` and `y` of the working image. -/
def sample_read_indices (d : thread_data) (X Y : Nat) : List Nat :=
  (loop_range (slice_start d.thread_id d.p d.num_threads)
      (slice_end d.thread_id d.p d.num_threads)).flatMap (fun i =>
    (loop_range 0 d.q).flatMap (fun j => [i * d.step_x * Y + j * d.step_y]))
  ++ (loop_range (slice_start d.thread_id d.p d.num_threads)
      (slice_end d.thread_id d.p d.num_threads)).flatMap (fun i =>
    [i * d.step_x * Y + X - 1])
  ++ (loop_range (slice_start d.thread_id d.q d.num_threads)
      (slice_end d.thread_id d.q d.num_threads)).flatMap (fun j =>
    [(X - 1) * Y + j * d.step_y])

/-- The indices of `contour->data` that `update_image` reads (line 42), in order. -/
def update_image_read_indices (contour : ppm_image) : List Nat :=
  (loop_range 0 contour.x).flatMap (fun i =>
    (loop_range 0 contour.y).flatMap (fun j => [contour.x * i + j]))

/-- The grid cells that line 168 reads for the cell `(i, j)`. -/
def config_code_cells (i j : Nat) : List (Nat × Nat) :=
  [(i, j), (i, j + 1), (i + 1, j + 1), (i + 1, j)]

/-- The grid cells that one worker reads in the stamping phase (lines 166-168), in order. -/
def march_grid_reads (d : thread_data) : List (Nat × Nat) :=
  (loop_range (slice_start d.thread_id d.p d.num_threads)
      (slice_end d.thread_id d.p d.num_threads)).flatMap (fun i =>
    (loop_range 0 d.q).flatMap (fun j => config_code_cells i j))

/-! ## Lemmas on the work partition -/

theorem slice_end_eq_start_succ (N T t : Nat) (ht : t + 1 ≤ T) :
    slice_end t N T = slice_start (t + 1) N T := by
  unfold slice_end slice_start
  apply Nat.min_eq_left
  have hT : 0 < T := by omega
  apply Nat.div_le_of_le_mul
  exact Nat.mul_le_mul_right N ht

theorem slice_start_mono (N T : Nat) {t u : Nat} (h : t ≤ u) :
    slice_start t N T ≤ slice_start u N T := by
  unfold slice_start
  exact Nat.div_le_div_right (Nat.mul_le_mul_right N h)

theorem slice_start_zero (N T : Nat) : slice_start 0 N T = 0 := by
  simp [slice_start]

theorem slice_start_self (N T : Nat) (hT : 1 ≤ T) : slice_start T N T = N := by
  unfold slice_start
  exact Nat.mul_div_cancel_left N (by omega)

theorem worker_data_thread_id (d : thread_data) (t T : Nat) :
    (worker_data d t T).thread_id = t := rfl

theorem worker_data_num_threads (d : thread_data) (t T : Nat) :
    (worker_data d t T).num_threads = T := rfl

theorem worker_data_image (d : thread_data) (t T : Nat) :
    (worker_data d t T).image = d.image := rfl

theorem worker_data_p (d : thread_data) (t T : Nat) : (worker_data d t T).p = d.p := rfl

theorem worker_data_q (d : thread_data) (t T : Nat) : (worker_data d t T).q = d.q := rfl

theorem worker_data_step_x (d : thread_data) (t T : Nat) :
    (worker_data d t T).step_x = d.step_x := rfl

theorem worker_data_step_y (d : thread_data) (t T : Nat) :
    (worker_data d t T).step_y = d.step_y := rfl

theorem worker_data_contour_map (d : thread_data) (t T : Nat) :
    (worker_data d t T).contour_map = d.contour_map := rfl

/-! ## Lemmas on loops and store lists -/

theorem apply_ops_nil {κ α : Type} [DecidableEq κ] (b : buffer κ α) :
    apply_ops ([] : List (store_op κ α)) b = b := rfl

theorem apply_ops_append {κ α : Type} [DecidableEq κ] (l₁ l₂ : List (store_op κ α))
    (b : buffer κ α) : apply_ops (l₁ ++ l₂) b = apply_ops l₂ (apply_ops l₁ b) := by
  simp [apply_ops, List.foldl_append]

theorem apply_ops_single {κ α : Type} [DecidableEq κ] (w : store_op κ α) (b : buffer κ α) :
    apply_ops [w] b = b.store w.tid w.key w.value := rfl

/-- A loop whose body performs a list of stores performs the concatenation of the lists. -/
theorem foldl_eq_apply_ops {κ α : Type} [DecidableEq κ] (body : Nat → buffer κ α → buffer κ α)
    (ops : Nat → List (store_op κ α)) (h : ∀ i b, body i b = apply_ops (ops i) b)
    (l : List Nat) (b : buffer κ α) :
    l.foldl (fun acc i => body i acc) b = apply_ops (l.flatMap ops) b := by
  induction l generalizing b with
  | nil => rfl
  | cons a l ih =>
    simp only [List.foldl_cons, List.flatMap_cons, apply_ops_append]
    rw [ih, h]

theorem for_loop_eq_apply_ops {κ α : Type} [DecidableEq κ] (lo hi : Nat)
    (body : Nat → buffer κ α → buffer κ α) (ops : Nat → List (store_op κ α))
    (h : ∀ i b, body i b = apply_ops (ops i) b) (b : buffer κ α) :
    for_loop lo hi body b = apply_ops ((loop_range lo hi).flatMap ops) b :=
  foldl_eq_apply_ops body ops h _ b

theorem for_loop_apply_ops {κ α : Type} [DecidableEq κ] (lo hi : Nat)
    (ops : Nat → List (store_op κ α)) (b : buffer κ α) :
    for_loop lo hi (fun i acc => apply_ops (ops i) acc) b =
      apply_ops ((loop_range lo hi).flatMap ops) b :=
  foldl_eq_apply_ops _ ops (fun _ _ => rfl) _ b

/-- The stores of `ops` that hit the location `k`. -/
theorem apply_ops_writers {κ α : Type} [DecidableEq κ] (ops : List (store_op κ α))
    (b : buffer κ α) (k : κ) :
    (apply_ops ops b).writers k =
      ((ops.filter (fun w => decide (w.key = k))).map (fun w => w.tid)).reverse ++ b.writers k := by
  induction ops generalizing b with
  | nil => simp [apply_ops]
  | cons w ops ih =>
    have hstep : apply_ops (w :: ops) b = apply_ops ops (b.store w.tid w.key w.value) := rfl
    rw [hstep, ih]
    by_cases hk : w.key = k
    · have hk2 : k = w.key := hk.symm
      simp [List.filter_cons, hk, buffer.store]
    · have hk2 : ¬ k = w.key := fun h => hk h.symm
      simp [List.filter_cons, hk, hk2, buffer.store]

theorem apply_ops_val {κ α : Type} [DecidableEq κ] (ops : List (store_op κ α))
    (b : buffer κ α) (k : κ) :
    (apply_ops ops b).val k =
      match (ops.filter (fun w => decide (w.key = k))).getLast? with
      | some w => w.value
      | none => b.val k := by
  induction ops using List.reverseRecOn with
  | nil => simp [apply_ops]
  | append_singleton ops w ih =>
    rw [apply_ops_append, apply_ops_single]
    by_cases hk : w.key = k
    · have hk2 : k = w.key := hk.symm
      simp [List.filter_append, List.filter_cons, hk, buffer.store]
    · have hk2 : ¬ k = w.key := fun h => hk h.symm
      simp only [buffer.store, hk2, if_false, ih]
      simp [List.filter_append, List.filter_cons, hk]

/-- When exactly one store hits `k`, it determines the content and the writer of `k`. -/
theorem apply_ops_of_filter_single {κ α : Type} [DecidableEq κ] (ops : List (store_op κ α))
    (b : buffer κ α) (k : κ) (w : store_op κ α)
    (h : ops.filter (fun w => decide (w.key = k)) = [w]) :
    (apply_ops ops b).val k = w.value ∧ (apply_ops ops b).writers k = w.tid :: b.writers k := by
  rw [apply_ops_val, apply_ops_writers, h]
  simp

/-- When no store hits `k`, the location keeps its content and its writers. -/
theorem apply_ops_of_filter_nil {κ α : Type} [DecidableEq κ] (ops : List (store_op κ α))
    (b : buffer κ α) (k : κ)
    (h : ops.filter (fun w => decide (w.key = k)) = []) :
    (apply_ops ops b).val k = b.val k ∧ (apply_ops ops b).writers k = b.writers k := by
  rw [apply_ops_val, apply_ops_writers, h]
  simp

/-- The contents after a list of stores do not depend on who performs them. -/
theorem apply_ops_val_congr {κ α : Type} [DecidableEq κ] (l₁ l₂ : List (store_op κ α))
    (b₁ b₂ : buffer κ α) (hb : b₁.val = b₂.val)
    (h : l₁.map (fun w => (w.key, w.value)) = l₂.map (fun w => (w.key, w.value))) :
    (apply_ops l₁ b₁).val = (apply_ops l₂ b₂).val := by
  induction l₁ generalizing l₂ b₁ b₂ with
  | nil =>
    cases l₂ with
    | nil => simpa [apply_ops] using hb
    | cons w l₂ => simp at h
  | cons w l₁ ih =>
    cases l₂ with
    | nil => simp at h
    | cons w₂ l₂ =>
      simp only [List.map_cons, List.cons.injEq, Prod.mk.injEq] at h
      obtain ⟨⟨hk, hv⟩, ht⟩ := h
      have h1 : apply_ops (w :: l₁) b₁ = apply_ops l₁ (b₁.store w.tid w.key w.value) := rfl
      have h2 : apply_ops (w₂ :: l₂) b₂ = apply_ops l₂ (b₂.store w₂.tid w₂.key w₂.value) := rfl
      rw [h1, h2]
      apply ih _ _ _ _ ht
      funext k
      simp [buffer.store, hk, hv, hb]

theorem filter_flatMap_nil {ι β : Type} (l : List ι) (f : ι → List β) (p : β → Bool)
    (h : ∀ i ∈ l, (f i).filter p = []) : (l.flatMap f).filter p = [] := by
  induction l with
  | nil => rfl
  | cons a l ih =>
    simp only [List.flatMap_cons, List.filter_append]
    rw [h a (List.mem_cons_self a l), ih (fun i hi => h i (List.mem_cons_of_mem a hi))]
    rfl

/-- In a duplicate-free list of indices, if only the index `a` contributes elements satisfying
`p`, the elements satisfying `p` are those contributed by `a`. -/
theorem filter_flatMap_single {ι β : Type} (l : List ι) (f : ι → List β) (p : β → Bool) (a : ι)
    (hnd : l.Nodup) (ha : a ∈ l) (h : ∀ i ∈ l, i ≠ a → (f i).filter p = []) :
    (l.flatMap f).filter p = (f a).filter p := by
  induction l with
  | nil => cases ha
  | cons b l ih =>
    simp only [List.flatMap_cons, List.filter_append]
    rw [List.nodup_cons] at hnd
    by_cases hba : b = a
    · subst hba
      rw [filter_flatMap_nil l f p]
      · simp
      · intro i hi
        apply h i (List.mem_cons_of_mem b hi)
        rintro rfl
        exact hnd.1 hi
    · have ha2 : a ∈ l := by
        rcases List.mem_cons.mp ha with h1 | h1
        · exact absurd h1.symm hba
        · exact h1
      rw [h b (List.mem_cons_self b l) hba, ih hnd.2 ha2
        (fun i hi hne => h i (List.mem_cons_of_mem b hi) hne)]
      rfl

theorem mem_loop_range {lo hi k : Nat} : k ∈ loop_range lo hi ↔ lo ≤ k ∧ k < hi := by
  unfold loop_range
  rw [List.mem_range'_1]
  omega

theorem nodup_loop_range (lo hi : Nat) : (loop_range lo hi).Nodup := by
  unfold loop_range
  exact List.nodup_range' lo (hi - lo)

theorem loop_range_append {a b c : Nat} (hab : a ≤ b) (hbc : b ≤ c) :
    loop_range a b ++ loop_range b c = loop_range a c := by
  unfold loop_range
  have h := List.range'_append_1 a (b - a) (c - b)
  have e1 : a + (b - a) = b := by omega
  have e2 : c - b + (b - a) = c - a := by omega
  rw [e1, e2] at h
  exact h

theorem slice_owner_spec (k N T : Nat) (hk : k < N) (hT : 1 ≤ T) :
    slice_owner k N T < T ∧ slice_start (slice_owner k N T) N T ≤ k ∧
      k < slice_end (slice_owner k N T) N T := by
  have hN : 0 < N := by omega
  have hT0 : 0 < T := hT
  have h1 : 1 ≤ (k + 1) * T := Nat.mul_pos (by omega) hT0
  have h2 : (k + 1) * T ≤ N * T := Nat.mul_le_mul_right T hk
  have hlow : slice_owner k N T * N ≤ (k + 1) * T - 1 := Nat.div_mul_le_self _ _
  have hhigh : (k + 1) * T - 1 < (slice_owner k N T + 1) * N := by
    have := Nat.lt_mul_div_succ ((k + 1) * T - 1) hN
    rw [Nat.mul_comm N] at this
    exact this
  refine ⟨?_, ?_, ?_⟩
  · unfold slice_owner
    rw [Nat.div_lt_iff_lt_mul hN]
    rw [Nat.mul_comm T N]
    omega
  · unfold slice_start
    apply Nat.le_of_lt_succ
    rw [Nat.div_lt_iff_lt_mul hT0]
    show slice_owner k N T * N < (k + 1) * T
    omega
  · unfold slice_end
    apply Nat.lt_min.mpr
    refine ⟨?_, hk⟩
    apply Nat.lt_of_succ_le
    rw [Nat.le_div_iff_mul_le hT0]
    show (k + 1) * T ≤ (slice_owner k N T + 1) * N
    omega

theorem slice_disjoint (N T : Nat) {t u k : Nat} (ht : t < T) (hu : u < T)
    (ht1 : slice_start t N T ≤ k) (ht2 : k < slice_end t N T)
    (hu1 : slice_start u N T ≤ k) (hu2 : k < slice_end u N T) : t = u := by
  rcases Nat.lt_trichotomy t u with h | h | h
  · exfalso
    have e := slice_end_eq_start_succ N T t (by omega)
    have m := slice_start_mono N T (show t + 1 ≤ u by omega)
    omega
  · exact h
  · exfalso
    have e := slice_end_eq_start_succ N T u (by omega)
    have m := slice_start_mono N T (show u + 1 ≤ t by omega)
    omega

theorem slice_owner_unique (N T : Nat) {t k : Nat} (hT : 1 ≤ T) (hk : k < N) (ht : t < T)
    (ht1 : slice_start t N T ≤ k) (ht2 : k < slice_end t N T) : t = slice_owner k N T := by
  obtain ⟨h1, h2, h3⟩ := slice_owner_spec k N T hk hT
  exact slice_disjoint N T ht h1 ht1 ht2 h2 h3

theorem slice_end_le (N T t : Nat) : slice_end t N T ≤ N := by
  unfold slice_end
  exact Nat.min_le_right _ _

/-- The slices of the workers `0 .. T'-1`, one after the other, are the indices below the start
of worker `T'`. -/
theorem slices_concat_upto (N T T' : Nat) (h : T' ≤ T) :
    (loop_range 0 T').flatMap (fun t => loop_range (slice_start t N T) (slice_end t N T)) =
      loop_range 0 (slice_start T' N T) := by
  induction T' with
  | zero => simp [loop_range, slice_start]
  | succ n ih =>
    have hsplit : loop_range 0 (n + 1) = loop_range 0 n ++ [n] := by
      unfold loop_range
      simp only [Nat.sub_zero]
      rw [List.range'_concat]
      simp
    rw [hsplit, List.flatMap_append, ih (by omega)]
    simp only [List.flatMap_cons, List.flatMap_nil, List.append_nil]
    rw [slice_end_eq_start_succ N T n h]
    exact loop_range_append (Nat.zero_le _) (slice_start_mono N T (Nat.le_succ n))

/-- The slices of all `T` workers, one after the other, are `0 .. N-1` in order. -/
theorem slices_concat (N T : Nat) (hT : 1 ≤ T) :
    (loop_range 0 T).flatMap (fun t => loop_range (slice_start t N T) (slice_end t N T)) =
      loop_range 0 N := by
  rw [slices_concat_upto N T T (Nat.le_refl T), slice_start_self N T hT]

theorem slice_size_le (N T t : Nat) (hT : 1 ≤ T) :
    slice_end t N T - slice_start t N T ≤ (N + T - 1) / T := by
  have hT0 : 0 < T := hT
  have h1 : slice_end t N T ≤ (t + 1) * N / T := by
    unfold slice_end
    exact Nat.min_le_left _ _
  have h2 : (t + 1) * N / T ≤ slice_start t N T + (N + T - 1) / T := by
    unfold slice_start
    apply Nat.le_of_lt_succ
    rw [Nat.div_lt_iff_lt_mul hT0]
    have a1 := Nat.lt_mul_div_succ (t * N) hT0
    have a2 := Nat.lt_mul_div_succ (N + T - 1) hT0
    have e : (t * N / T + (N + T - 1) / T).succ * T
        = T * (t * N / T + 1) + T * ((N + T - 1) / T + 1) - T := by
      simp only [Nat.succ_eq_add_one]
      ring_nf
      omega
    rw [e]
    have e2 : (t + 1) * N = t * N + N := by ring
    omega
  exact Nat.sub_le_iff_le_add'.mpr (Nat.le_trans h1 h2)

/-- Among single stores indexed by a duplicate-free list, if `i₀` is the only index whose store
hits `k`, that store is the only one hitting `k`. -/
theorem filter_key_hit {κ α : Type} [DecidableEq κ] (l : List Nat) (mk : Nat → store_op κ α)
    (k : κ) (i₀ : Nat) (hnd : l.Nodup) (h₀ : i₀ ∈ l) (hk : (mk i₀).key = k)
    (huniq : ∀ i ∈ l, (mk i).key = k → i = i₀) :
    (l.flatMap (fun i => [mk i])).filter (fun w => decide (w.key = k)) = [mk i₀] := by
  rw [filter_flatMap_single l _ _ i₀ hnd h₀]
  · simp [hk]
  · intro i hi hne
    have : ¬ (mk i).key = k := fun h => hne (huniq i hi h)
    simp [this]

theorem filter_key_miss {κ α : Type} [DecidableEq κ] (l : List Nat) (mk : Nat → store_op κ α)
    (k : κ) (h : ∀ i ∈ l, (mk i).key ≠ k) :
    (l.flatMap (fun i => [mk i])).filter (fun w => decide (w.key = k)) = [] := by
  apply filter_flatMap_nil
  intro i hi
  simp [h i hi]

/-! ## The sampling phase as a list of stores -/

theorem threshold_store_eq (c : constants) (tid : Nat) (grid : buffer (Nat × Nat) uchar)
    (key : Nat × Nat) (px : ppm_pixel) :
    threshold_store c tid grid key px =
      apply_ops [{ tid := tid, key := key, value := threshold c px }] grid := by
  unfold threshold_store threshold
  split <;> rfl

theorem sample_worker_eq (c : constants) (d : thread_data) (s : state) :
    sample_worker c d s = { s with grid := apply_ops (sample_ops c d s.scaled_image) s.grid } := by
  unfold sample_worker sample_ops sample_ops_interior sample_ops_last_column sample_ops_last_row
  simp only [apply_ops_append, threshold_store_eq, for_loop_apply_ops]

theorem foldl_grid_ops (ops : Nat → work_image → List (store_op (Nat × Nat) uchar))
    (l : List Nat) (s : state) :
    l.foldl (fun acc t => { acc with grid := apply_ops (ops t acc.scaled_image) acc.grid }) s =
      { s with grid := apply_ops (l.flatMap (fun t => ops t s.scaled_image)) s.grid } := by
  induction l generalizing s with
  | nil => rfl
  | cons a l ih =>
    simp only [List.foldl_cons, List.flatMap_cons, apply_ops_append]
    rw [ih]

theorem sample_phase_eq (c : constants) (T : Nat) (d : thread_data) (s : state) :
    run_phase T (sample_worker c) d s =
      { s with grid := apply_ops (sample_phase_ops c T d s.scaled_image) s.grid } := by
  unfold run_phase for_loop sample_phase_ops
  simp only [sample_worker_eq]
  exact foldl_grid_ops (fun t img => sample_ops c (worker_data d t T) img) _ s

theorem sample_interior_hit (c : constants) (d : thread_data) (img : work_image) (i j : Nat)
    (hi₁ : slice_start d.thread_id d.p d.num_threads ≤ i)
    (hi₂ : i < slice_end d.thread_id d.p d.num_threads) (hj : j < d.q) :
    (sample_ops_interior c d img).filter (fun w => decide (w.key = (i, j))) =
      [{ tid := d.thread_id, key := (i, j),
         value := threshold c (img.data.val (i * d.step_x * img.y + j * d.step_y)) }] := by
  unfold sample_ops_interior
  rw [filter_flatMap_single _ _ _ i (nodup_loop_range _ _) (mem_loop_range.mpr ⟨hi₁, hi₂⟩)]
  · exact filter_key_hit (loop_range 0 d.q) _ (i, j) j (nodup_loop_range _ _)
      (mem_loop_range.mpr ⟨Nat.zero_le _, hj⟩) rfl (fun j' _ h => (Prod.mk.inj h).2)
  · intro i' _ hne
    apply filter_key_miss
    intro j' _ h
    exact hne (Prod.mk.inj h).1

theorem sample_interior_miss (c : constants) (d : thread_data) (img : work_image) (i j : Nat)
    (h : ¬ (slice_start d.thread_id d.p d.num_threads ≤ i ∧
      i < slice_end d.thread_id d.p d.num_threads ∧ j < d.q)) :
    (sample_ops_interior c d img).filter (fun w => decide (w.key = (i, j))) = [] := by
  unfold sample_ops_interior
  apply filter_flatMap_nil
  intro i' hi'
  apply filter_key_miss
  intro j' hj' hkey
  obtain ⟨rfl, rfl⟩ := Prod.mk.inj hkey
  exact h ⟨(mem_loop_range.mp hi').1, (mem_loop_range.mp hi').2, (mem_loop_range.mp hj').2⟩

theorem sample_last_column_hit (c : constants) (d : thread_data) (img : work_image) (i j : Nat)
    (hi₁ : slice_start d.thread_id d.p d.num_threads ≤ i)
    (hi₂ : i < slice_end d.thread_id d.p d.num_threads) (hj : j = d.q) :
    (sample_ops_last_column c d img).filter (fun w => decide (w.key = (i, j))) =
      [{ tid := d.thread_id, key := (i, j),
         value := threshold c (img.data.val (i * d.step_x * img.y + img.x - 1)) }] := by
  subst hj
  unfold sample_ops_last_column
  exact filter_key_hit _ _ (i, d.q) i (nodup_loop_range _ _)
    (mem_loop_range.mpr ⟨hi₁, hi₂⟩) rfl (fun i' _ h => (Prod.mk.inj h).1)

theorem sample_last_column_miss (c : constants) (d : thread_data) (img : work_image) (i j : Nat)
    (h : ¬ (slice_start d.thread_id d.p d.num_threads ≤ i ∧
      i < slice_end d.thread_id d.p d.num_threads ∧ j = d.q)) :
    (sample_ops_last_column c d img).filter (fun w => decide (w.key = (i, j))) = [] := by
  unfold sample_ops_last_column
  apply filter_key_miss
  intro i' hi' hkey
  obtain ⟨rfl, rfl⟩ := Prod.mk.inj hkey
  exact h ⟨(mem_loop_range.mp hi').1, (mem_loop_range.mp hi').2, rfl⟩

theorem sample_last_row_hit (c : constants) (d : thread_data) (img : work_image) (i j : Nat)
    (hi : i = d.p) (hj₁ : slice_start d.thread_id d.q d.num_threads ≤ j)
    (hj₂ : j < slice_end d.thread_id d.q d.num_threads) :
    (sample_ops_last_row c d img).filter (fun w => decide (w.key = (i, j))) =
      [{ tid := d.thread_id, key := (i, j),
         value := threshold c (img.data.val ((img.x - 1) * img.y + j * d.step_y)) }] := by
  subst hi
  unfold sample_ops_last_row
  exact filter_key_hit _ _ (d.p, j) j (nodup_loop_range _ _)
    (mem_loop_range.mpr ⟨hj₁, hj₂⟩) rfl (fun j' _ h => (Prod.mk.inj h).2)

theorem sample_last_row_miss (c : constants) (d : thread_data) (img : work_image) (i j : Nat)
    (h : ¬ (i = d.p ∧ slice_start d.thread_id d.q d.num_threads ≤ j ∧
      j < slice_end d.thread_id d.q d.num_threads)) :
    (sample_ops_last_row c d img).filter (fun w => decide (w.key = (i, j))) = [] := by
  unfold sample_ops_last_row
  apply filter_key_miss
  intro j' hj' hkey
  obtain ⟨rfl, rfl⟩ := Prod.mk.inj hkey
  exact h ⟨rfl, (mem_loop_range.mp hj').1, (mem_loop_range.mp hj').2⟩

/-! ## Which stores of the sampling phase hit a given cell -/

theorem sample_phase_filter_interior (c : constants) (T : Nat) (d : thread_data)
    (img : work_image) (i j : Nat) (hT : 1 ≤ T) (hi : i < d.p) (hj : j < d.q) :
    (sample_phase_ops c T d img).filter (fun w => decide (w.key = (i, j))) =
      [{ tid := slice_owner i d.p T, key := (i, j),
         value := threshold c (img.data.val (i * d.step_x * img.y + j * d.step_y)) }] := by
  obtain ⟨ho, hs, he⟩ := slice_owner_spec i d.p T hi hT
  unfold sample_phase_ops
  rw [filter_flatMap_single _ _ _ (slice_owner i d.p T) (nodup_loop_range _ _)
    (mem_loop_range.mpr ⟨Nat.zero_le _, ho⟩)]
  · unfold sample_ops
    rw [List.filter_append, List.filter_append,
      sample_interior_hit c (worker_data d (slice_owner i d.p T) T) img i j hs he hj,
      sample_last_column_miss c (worker_data d (slice_owner i d.p T) T) img i j (fun h => absurd h.2.2 (Nat.ne_of_lt hj)),
      sample_last_row_miss c (worker_data d (slice_owner i d.p T) T) img i j (fun h => absurd h.1 (Nat.ne_of_lt hi))]
    rfl
  · intro t ht hne
    unfold sample_ops
    rw [List.filter_append, List.filter_append,
      sample_interior_miss c (worker_data d t T) img i j
        (fun h => hne (slice_owner_unique d.p T hT hi (mem_loop_range.mp ht).2 h.1 h.2.1)),
      sample_last_column_miss c (worker_data d t T) img i j (fun h => absurd h.2.2 (Nat.ne_of_lt hj)),
      sample_last_row_miss c (worker_data d t T) img i j (fun h => absurd h.1 (Nat.ne_of_lt hi))]
    rfl

theorem sample_phase_filter_last_column (c : constants) (T : Nat) (d : thread_data)
    (img : work_image) (i : Nat) (hT : 1 ≤ T) (hi : i < d.p) :
    (sample_phase_ops c T d img).filter (fun w => decide (w.key = (i, d.q))) =
      [{ tid := slice_owner i d.p T, key := (i, d.q),
         value := threshold c (img.data.val (i * d.step_x * img.y + img.x - 1)) }] := by
  obtain ⟨ho, hs, he⟩ := slice_owner_spec i d.p T hi hT
  unfold sample_phase_ops
  rw [filter_flatMap_single _ _ _ (slice_owner i d.p T) (nodup_loop_range _ _)
    (mem_loop_range.mpr ⟨Nat.zero_le _, ho⟩)]
  · unfold sample_ops
    rw [List.filter_append, List.filter_append,
      sample_interior_miss c (worker_data d (slice_owner i d.p T) T) img i d.q (fun h => absurd h.2.2 (Nat.lt_irrefl _)),
      sample_last_column_hit c (worker_data d (slice_owner i d.p T) T) img i d.q hs he rfl,
      sample_last_row_miss c (worker_data d (slice_owner i d.p T) T) img i d.q (fun h => absurd h.1 (Nat.ne_of_lt hi))]
    rfl
  · intro t ht hne
    unfold sample_ops
    rw [List.filter_append, List.filter_append,
      sample_interior_miss c (worker_data d t T) img i d.q (fun h => absurd h.2.2 (Nat.lt_irrefl _)),
      sample_last_column_miss c (worker_data d t T) img i d.q
        (fun h => hne (slice_owner_unique d.p T hT hi (mem_loop_range.mp ht).2 h.1 h.2.1)),
      sample_last_row_miss c (worker_data d t T) img i d.q (fun h => absurd h.1 (Nat.ne_of_lt hi))]
    rfl

theorem sample_phase_filter_last_row (c : constants) (T : Nat) (d : thread_data)
    (img : work_image) (j : Nat) (hT : 1 ≤ T) (hj : j < d.q) :
    (sample_phase_ops c T d img).filter (fun w => decide (w.key = (d.p, j))) =
      [{ tid := slice_owner j d.q T, key := (d.p, j),
         value := threshold c (img.data.val ((img.x - 1) * img.y + j * d.step_y)) }] := by
  obtain ⟨ho, hs, he⟩ := slice_owner_spec j d.q T hj hT
  unfold sample_phase_ops
  rw [filter_flatMap_single _ _ _ (slice_owner j d.q T) (nodup_loop_range _ _)
    (mem_loop_range.mpr ⟨Nat.zero_le _, ho⟩)]
  · unfold sample_ops
    rw [List.filter_append, List.filter_append,
      sample_interior_miss c (worker_data d (slice_owner j d.q T) T) img d.p j
        (fun h => absurd (Nat.lt_of_lt_of_le h.2.1 (slice_end_le _ _ _)) (Nat.lt_irrefl _)),
      sample_last_column_miss c (worker_data d (slice_owner j d.q T) T) img d.p j
        (fun h => absurd (Nat.lt_of_lt_of_le h.2.1 (slice_end_le _ _ _)) (Nat.lt_irrefl _)),
      sample_last_row_hit c (worker_data d (slice_owner j d.q T) T) img d.p j rfl hs he]
    rfl
  · intro t ht hne
    unfold sample_ops
    rw [List.filter_append, List.filter_append,
      sample_interior_miss c (worker_data d t T) img d.p j
        (fun h => absurd (Nat.lt_of_lt_of_le h.2.1 (slice_end_le _ _ _)) (Nat.lt_irrefl _)),
      sample_last_column_miss c (worker_data d t T) img d.p j
        (fun h => absurd (Nat.lt_of_lt_of_le h.2.1 (slice_end_le _ _ _)) (Nat.lt_irrefl _)),
      sample_last_row_miss c (worker_data d t T) img d.p j
        (fun h => hne (slice_owner_unique d.q T hT hj (mem_loop_range.mp ht).2 h.2.1 h.2.2))]
    rfl

/-- No store of the sampling phase hits a cell outside the three written regions; in particular
none hits the corner cell `(p, q)`. -/
theorem sample_phase_filter_other (c : constants) (T : Nat) (d : thread_data)
    (img : work_image) (i j : Nat) (h₁ : ¬ (i < d.p ∧ j ≤ d.q)) (h₂ : ¬ (i = d.p ∧ j < d.q)) :
    (sample_phase_ops c T d img).filter (fun w => decide (w.key = (i, j))) = [] := by
  unfold sample_phase_ops
  apply filter_flatMap_nil
  intro t _
  unfold sample_ops
  rw [List.filter_append, List.filter_append,
    sample_interior_miss c (worker_data d t T) img i j
      (fun h => h₁ ⟨Nat.lt_of_lt_of_le h.2.1 (slice_end_le _ _ _), Nat.le_of_lt h.2.2⟩),
    sample_last_column_miss c (worker_data d t T) img i j
      (fun h => h₁ ⟨Nat.lt_of_lt_of_le h.2.1 (slice_end_le _ _ _), Nat.le_of_eq h.2.2⟩),
    sample_last_row_miss c (worker_data d t T) img i j
      (fun h => h₂ ⟨h.1, Nat.lt_of_lt_of_le h.2.2 (slice_end_le _ _ _)⟩)]
  rfl

/-! ## The grid after the sampling phase -/

theorem curr_color_eq (px : ppm_pixel) :
    curr_color px = (px.red.val + px.green.val + px.blue.val) / 3 := by
  unfold curr_color
  have h1 := px.red.isLt
  have h2 := px.green.isLt
  have h3 := px.blue.isLt
  omega

theorem threshold_eq (c : constants) (px : ppm_pixel) :
    threshold c px = if (px.red.val + px.green.val + px.blue.val) / 3 ≤ c.SIGMA then 1 else 0 := by
  unfold threshold
  rw [curr_color_eq]
  by_cases h : (px.red.val + px.green.val + px.blue.val) / 3 ≤ c.SIGMA
  · rw [if_neg (by omega), if_pos h]
  · rw [if_pos (by omega), if_neg h]

theorem sample_phase_interior (c : constants) (T : Nat) (d : thread_data) (s : state)
    (i j : Nat) (hT : 1 ≤ T) (hi : i < d.p) (hj : j < d.q) :
    (run_phase T (sample_worker c) d s).grid.val (i, j) =
        threshold c (s.scaled_image.data.val (i * d.step_x * s.scaled_image.y + j * d.step_y)) ∧
      (run_phase T (sample_worker c) d s).grid.writers (i, j) =
        slice_owner i d.p T :: s.grid.writers (i, j) := by
  rw [sample_phase_eq]
  exact apply_ops_of_filter_single _ _ _ _
    (sample_phase_filter_interior c T d s.scaled_image i j hT hi hj)

theorem sample_phase_last_column (c : constants) (T : Nat) (d : thread_data) (s : state)
    (i : Nat) (hT : 1 ≤ T) (hi : i < d.p) :
    (run_phase T (sample_worker c) d s).grid.val (i, d.q) =
        threshold c (s.scaled_image.data.val
          (i * d.step_x * s.scaled_image.y + s.scaled_image.x - 1)) ∧
      (run_phase T (sample_worker c) d s).grid.writers (i, d.q) =
        slice_owner i d.p T :: s.grid.writers (i, d.q) := by
  rw [sample_phase_eq]
  exact apply_ops_of_filter_single _ _ _ _
    (sample_phase_filter_last_column c T d s.scaled_image i hT hi)

theorem sample_phase_last_row (c : constants) (T : Nat) (d : thread_data) (s : state)
    (j : Nat) (hT : 1 ≤ T) (hj : j < d.q) :
    (run_phase T (sample_worker c) d s).grid.val (d.p, j) =
        threshold c (s.scaled_image.data.val
          ((s.scaled_image.x - 1) * s.scaled_image.y + j * d.step_y)) ∧
      (run_phase T (sample_worker c) d s).grid.writers (d.p, j) =
        slice_owner j d.q T :: s.grid.writers (d.p, j) := by
  rw [sample_phase_eq]
  exact apply_ops_of_filter_single _ _ _ _
    (sample_phase_filter_last_row c T d s.scaled_image j hT hj)

/-- The sampling phase stores nothing outside the three regions it fills. -/
theorem sample_phase_other (c : constants) (T : Nat) (d : thread_data) (s : state)
    (i j : Nat) (h₁ : ¬ (i < d.p ∧ j ≤ d.q)) (h₂ : ¬ (i = d.p ∧ j < d.q)) :
    (run_phase T (sample_worker c) d s).grid.val (i, j) = s.grid.val (i, j) ∧
      (run_phase T (sample_worker c) d s).grid.writers (i, j) = s.grid.writers (i, j) := by
  rw [sample_phase_eq]
  exact apply_ops_of_filter_nil _ _ _ (sample_phase_filter_other c T d s.scaled_image i j h₁ h₂)

theorem sample_phase_scaled_image (c : constants) (T : Nat) (d : thread_data) (s : state) :
    (run_phase T (sample_worker c) d s).scaled_image = s.scaled_image ∧
      (run_phase T (sample_worker c) d s).output = s.output := by
  rw [sample_phase_eq]
  exact ⟨rfl, rfl⟩

theorem sample_phase_fault (c : constants) (T : Nat) (d : thread_data) (s : state) :
    (run_phase T (sample_worker c) d s).fault = s.fault := by
  rw [sample_phase_eq]

/-! ## The stamping phase as a list of stores -/

theorem store_eq_apply_ops {κ α : Type} [DecidableEq κ] (b : buffer κ α) (tid : Nat) (k : κ)
    (v : α) : b.store tid k v = apply_ops [{ tid := tid, key := k, value := v }] b := rfl

theorem update_image_eq (tid : Nat) (image : work_image) (contour : ppm_image) (x y : Nat) :
    update_image tid image contour x y =
      { image with data := apply_ops (update_image_ops tid image.y contour x y) image.data } := by
  unfold update_image update_image_ops
  simp only [store_eq_apply_ops, for_loop_apply_ops]

theorem stores_within_refl (full : List (store_op Nat ppm_pixel)) (s : state) :
    stores_within full s s :=
  ⟨[], List.nil_sublist full, rfl, rfl, rfl⟩

theorem stores_within_fault (full : List (store_op Nat ppm_pixel)) (s : state) (b : Bool) :
    stores_within full s { s with fault := b } :=
  ⟨[], List.nil_sublist full, rfl, rfl, rfl⟩

theorem stores_within_append {f₁ f₂ : List (store_op Nat ppm_pixel)} {s s' s'' : state}
    (h₁ : stores_within f₁ s s') (h₂ : stores_within f₂ s' s'') :
    stores_within (f₁ ++ f₂) s s'' := by
  obtain ⟨o₁, hs₁, hi₁, hg₁, ho₁⟩ := h₁
  obtain ⟨o₂, hs₂, hi₂, hg₂, ho₂⟩ := h₂
  refine ⟨o₁ ++ o₂, List.Sublist.append hs₁ hs₂, ?_, hg₂.trans hg₁, ho₂.trans ho₁⟩
  rw [hi₂, hi₁, apply_ops_append]

/-- A loop whose body performs some of the stores of `f i`, the lists being computed from the
grid and the row length, which no store changes, performs some of the stores of all the
lists. -/
theorem foldl_stores_within (body : Nat → state → state)
    (f : (Nat × Nat → uchar) → Nat → Nat → List (store_op Nat ppm_pixel))
    (h : ∀ i acc, stores_within (f acc.grid.val acc.scaled_image.y i) acc (body i acc))
    (l : List Nat) (s : state) :
    stores_within (l.flatMap (f s.grid.val s.scaled_image.y)) s
      (l.foldl (fun acc i => body i acc) s) := by
  induction l generalizing s with
  | nil => exact stores_within_refl _ s
  | cons a l ih =>
    have ha := h a s
    have hl := ih (body a s)
    obtain ⟨o, _, hi, hg, _⟩ := ha
    have hy : (body a s).scaled_image.y = s.scaled_image.y := by rw [hi]
    rw [hg, hy] at hl
    exact stores_within_append (h a s) hl

theorem march_cell_within (d : thread_data) (i j : Nat) (s : state) :
    stores_within (cell_ops d.thread_id d s.grid.val s.scaled_image.y i j) s
      (march_cell d i j s) := by
  unfold march_cell cell_ops atlas_entry
  by_cases hf : s.fault = true
  · rw [if_pos hf]
    exact stores_within_refl _ s
  · rw [if_neg hf]
    by_cases hk : config_code s.grid.val i j < CONTOUR_CONFIG_COUNT
    · simp only [if_pos hk]
      exact ⟨_, List.Sublist.refl _, update_image_eq _ _ _ _ _, rfl, rfl⟩
    · simp only [if_neg hk]
      exact stores_within_fault _ s true

theorem march_row_within (d : thread_data) (i : Nat) (s : state) :
    stores_within (march_row_ops d.thread_id d s.grid.val s.scaled_image.y i) s
      (for_loop 0 d.q (fun j acc => march_cell d i j acc) s) :=
  foldl_stores_within (fun j acc => march_cell d i j acc)
    (fun grid Y j => cell_ops d.thread_id d grid Y i j)
    (fun j acc => march_cell_within d i j acc) _ s

/-- A worker of the stamping phase performs some of the stores of `march_ops`, in order, and
changes nothing else but the fault flag. -/
theorem march_worker_within (d : thread_data) (s : state) :
    stores_within (march_ops d s.grid.val s.scaled_image.y) s (march_worker d s) :=
  foldl_stores_within
    (fun i acc => for_loop 0 d.q (fun j acc => march_cell d i j acc) acc)
    (fun grid Y i => march_row_ops d.thread_id d grid Y i)
    (fun i acc => march_row_within d i acc) _ s

theorem march_phase_within (T : Nat) (d : thread_data) (s : state) :
    stores_within (march_phase_ops T d s.grid.val s.scaled_image.y) s
      (run_phase T march_worker d s) :=
  foldl_stores_within (fun t acc => march_worker (worker_data d t T) acc)
    (fun grid Y t => march_ops (worker_data d t T) grid Y)
    (fun t acc => march_worker_within (worker_data d t T) acc) _ s

theorem foldl_data_ops (ops : Nat → Nat → Nat → (Nat × Nat → uchar) → List (store_op Nat ppm_pixel))
    (l : List Nat) (s : state) :
    l.foldl (fun acc t => acc.with_data (apply_ops
        (ops t acc.scaled_image.x acc.scaled_image.y acc.grid.val) acc.scaled_image.data)) s =
      s.with_data (apply_ops
        (l.flatMap (fun t => ops t s.scaled_image.x s.scaled_image.y s.grid.val))
        s.scaled_image.data) := by
  induction l generalizing s with
  | nil => rfl
  | cons a l ih =>
    simp only [List.foldl_cons, List.flatMap_cons, apply_ops_append]
    rw [ih]
    rfl

theorem row_col_unique {Y r c r' c' : Nat} (hc : c < Y) (hc' : c' < Y)
    (h : r * Y + c = r' * Y + c') : r = r' ∧ c = c' := by
  rcases Nat.lt_trichotomy r r' with hlt | heq | hgt
  · exfalso
    have h1 : (r + 1) * Y ≤ r' * Y := Nat.mul_le_mul_right Y hlt
    rw [Nat.add_mul, Nat.one_mul] at h1
    omega
  · subst heq
    exact ⟨rfl, by omega⟩
  · exfalso
    have h1 : (r' + 1) * Y ≤ r * Y := Nat.mul_le_mul_right Y hgt
    rw [Nat.add_mul, Nat.one_mul] at h1
    omega

/-- The only store of `update_image` that hits the pixel `(x + a, y + b)` of the image writes
the contour pixel at index `contour.x * a + b`. -/
theorem update_image_filter (tid Y : Nat) (contour : ppm_image) (x y a b : Nat)
    (ha : a < contour.x) (hb : b < contour.y) (hfit : y + contour.y ≤ Y) :
    (update_image_ops tid Y contour x y).filter
        (fun w => decide (w.key = (x + a) * Y + y + b)) =
      [{ tid := tid, key := (x + a) * Y + y + b, value := contour.data (contour.x * a + b) }] := by
  unfold update_image_ops
  rw [filter_flatMap_single _ _ _ a (nodup_loop_range _ _)
    (mem_loop_range.mpr ⟨Nat.zero_le _, ha⟩)]
  · refine filter_key_hit (loop_range 0 contour.y) _ _ b (nodup_loop_range _ _)
      (mem_loop_range.mpr ⟨Nat.zero_le _, hb⟩) rfl ?_
    intro j' _ h
    simp only at h
    omega
  · intro i' _ hne
    apply filter_key_miss
    intro j' hj' h
    simp only at h
    have hj2 := (mem_loop_range.mp hj').2
    have e : (x + i') * Y + (y + j') = (x + a) * Y + (y + b) := by omega
    have := (row_col_unique (by omega) (by omega) e).1
    omega

/-- The pixel `(x + a, y + b)` of the image after `update_image`, for a contour that fits in the
row length of the image. -/
theorem update_image_pixel (tid : Nat) (image : work_image) (contour : ppm_image)
    (x y a b : Nat) (ha : a < contour.x) (hb : b < contour.y) (hfit : y + contour.y ≤ image.y) :
    (update_image tid image contour x y).data.val ((x + a) * image.y + y + b) =
      contour.data (contour.x * a + b) := by
  rw [update_image_eq]
  exact (apply_ops_of_filter_single _ _ _ _
    (update_image_filter tid image.y contour x y a b ha hb hfit)).1

/-! ## The rescale phase as a list of stores -/

theorem rescale_worker_eq (c : constants) (sample_bicubic : ppm_image → ℚ → ℚ → ppm_pixel)
    (d : thread_data) (s : state) :
    rescale_worker c sample_bicubic d s =
      s.with_data (apply_ops
        (rescale_ops c sample_bicubic d s.scaled_image.x s.scaled_image.y)
        s.scaled_image.data) := by
  unfold rescale_worker rescale_ops rescale_row_ops memcpy memcpy_ops state.with_data
  by_cases hb : d.image.x > c.RESCALE_X ∨ d.image.y > c.RESCALE_Y
  · simp only [if_pos hb, store_eq_apply_ops, for_loop_apply_ops]
  · by_cases h0 : d.thread_id = 0
    · simp only [if_neg hb, if_pos h0, store_eq_apply_ops, for_loop_apply_ops]
    · simp only [if_neg hb, if_neg h0]
      rfl

theorem rescale_phase_eq (c : constants) (sample_bicubic : ppm_image → ℚ → ℚ → ppm_pixel)
    (T : Nat) (d : thread_data) (s : state) :
    run_phase T (rescale_worker c sample_bicubic) d s =
      s.with_data (apply_ops
        (rescale_phase_ops c sample_bicubic T d s.scaled_image.x s.scaled_image.y)
        s.scaled_image.data) := by
  unfold run_phase for_loop rescale_phase_ops
  simp only [rescale_worker_eq]
  exact foldl_data_ops (fun t X Y _ => rescale_ops c sample_bicubic (worker_data d t T) X Y) _ s

theorem rescale_row_filter_hit (sample_bicubic : ppm_image → ℚ → ℚ → ppm_pixel) (tid : Nat)
    (image : ppm_image) (X Y i j : Nat) (hj : j < Y) :
    (rescale_row_ops sample_bicubic tid image X Y i).filter
        (fun w => decide (w.key = i * Y + j)) =
      [{ tid := tid, key := i * Y + j,
         value := sample_bicubic image ((i : ℚ) / ((X : ℚ) - 1)) ((j : ℚ) / ((Y : ℚ) - 1)) }] := by
  unfold rescale_row_ops
  refine filter_key_hit (loop_range 0 Y) _ _ j (nodup_loop_range _ _)
    (mem_loop_range.mpr ⟨Nat.zero_le _, hj⟩) rfl ?_
  intro j' _ h
  simp only at h
  omega

theorem rescale_row_filter_miss (sample_bicubic : ppm_image → ℚ → ℚ → ppm_pixel) (tid : Nat)
    (image : ppm_image) (X Y i i' j : Nat) (hj : j < Y) (hne : i' ≠ i) :
    (rescale_row_ops sample_bicubic tid image X Y i').filter
        (fun w => decide (w.key = i * Y + j)) = [] := by
  unfold rescale_row_ops
  apply filter_key_miss
  intro j' hj' h
  simp only at h
  exact hne (row_col_unique (mem_loop_range.mp hj').2 hj h).1

/-- When the rescale branch is taken, exactly one store of the phase hits the pixel `(i, j)`. -/
theorem rescale_phase_filter (c : constants) (sample_bicubic : ppm_image → ℚ → ℚ → ppm_pixel)
    (T : Nat) (d : thread_data) (X Y i j : Nat) (hT : 1 ≤ T)
    (hb : d.image.x > c.RESCALE_X ∨ d.image.y > c.RESCALE_Y) (hi : i < X) (hj : j < Y) :
    (rescale_phase_ops c sample_bicubic T d X Y).filter (fun w => decide (w.key = i * Y + j)) =
      [{ tid := slice_owner i X T, key := i * Y + j,
         value := sample_bicubic d.image ((i : ℚ) / ((X : ℚ) - 1))
           ((j : ℚ) / ((Y : ℚ) - 1)) }] := by
  obtain ⟨ho, hs, he⟩ := slice_owner_spec i X T hi hT
  have hb' : ∀ t, (worker_data d t T).image.x > c.RESCALE_X ∨
      (worker_data d t T).image.y > c.RESCALE_Y := fun _ => hb
  unfold rescale_phase_ops
  rw [filter_flatMap_single _ _ _ (slice_owner i X T) (nodup_loop_range _ _)
    (mem_loop_range.mpr ⟨Nat.zero_le _, ho⟩)]
  · unfold rescale_ops
    rw [if_pos (hb' _)]
    simp only [worker_data_thread_id, worker_data_num_threads, worker_data_image]
    rw [filter_flatMap_single _ _ _ i (nodup_loop_range _ _) (mem_loop_range.mpr ⟨hs, he⟩)]
    · exact rescale_row_filter_hit sample_bicubic _ _ X Y i j hj
    · intro i' _ hne
      exact rescale_row_filter_miss sample_bicubic _ _ X Y i i' j hj hne
  · intro t ht hne
    unfold rescale_ops
    rw [if_pos (hb' _)]
    apply filter_flatMap_nil
    intro i' hi'
    apply rescale_row_filter_miss sample_bicubic _ _ X Y i i' j hj
    rintro rfl
    exact hne (slice_owner_unique X T hT hi (mem_loop_range.mp ht).2
      (mem_loop_range.mp hi').1 (mem_loop_range.mp hi').2)

/-! ## The contents written by a phase do not depend on the number of workers -/

theorem erase_tid_flatMap {ι κ α : Type} (l : List ι) (f : ι → List (store_op κ α)) :
    erase_tid (l.flatMap f) = l.flatMap (fun i => erase_tid (f i)) := by
  unfold erase_tid
  rw [List.map_flatMap]

theorem apply_ops_val_of_erase_tid {κ α : Type} [DecidableEq κ] (l₁ l₂ : List (store_op κ α))
    (b₁ b₂ : buffer κ α) (hb : b₁.val = b₂.val) (h : erase_tid l₁ = erase_tid l₂) :
    (apply_ops l₁ b₁).val = (apply_ops l₂ b₂).val :=
  apply_ops_val_congr l₁ l₂ b₁ b₂ hb h

/-- Rows handed out in slices to `T` workers are, all in all, the rows `0 .. N-1` in order. -/
theorem erase_tid_sliced {κ α : Type} (N T : Nat) (hT : 1 ≤ T)
    (row : Nat → Nat → List (store_op κ α)) (content : Nat → List (κ × α))
    (hrow : ∀ t i, erase_tid (row t i) = content i) :
    erase_tid ((loop_range 0 T).flatMap (fun t =>
        (loop_range (slice_start t N T) (slice_end t N T)).flatMap (row t))) =
      (loop_range 0 N).flatMap content := by
  rw [erase_tid_flatMap]
  simp only [erase_tid_flatMap, hrow]
  rw [← List.flatMap_assoc, slices_concat N T hT]

theorem flatMap_only_zero {β : Type} (T : Nat) (hT : 1 ≤ T) (f : Nat → List β)
    (h : ∀ t, t ≠ 0 → f t = []) : (loop_range 0 T).flatMap f = f 0 := by
  have h1 := filter_flatMap_single (loop_range 0 T) f (fun _ => true) 0 (nodup_loop_range _ _)
    (mem_loop_range.mpr ⟨Nat.le_refl 0, hT⟩) (fun t _ hne => by rw [h t hne]; rfl)
  simpa using h1

theorem erase_tid_update_image_ops (tid Y : Nat) (contour : ppm_image) (x y : Nat) :
    erase_tid (update_image_ops tid Y contour x y) =
      erase_tid (update_image_ops 0 Y contour x y) := by
  unfold update_image_ops
  simp only [erase_tid_flatMap]
  rfl

theorem erase_tid_rescale_row_ops (sample_bicubic : ppm_image → ℚ → ℚ → ppm_pixel) (tid : Nat)
    (image : ppm_image) (X Y i : Nat) :
    erase_tid (rescale_row_ops sample_bicubic tid image X Y i) =
      erase_tid (rescale_row_ops sample_bicubic 0 image X Y i) := by
  unfold rescale_row_ops
  simp only [erase_tid_flatMap]
  rfl

theorem erase_tid_rescale_phase_ops (c : constants)
    (sample_bicubic : ppm_image → ℚ → ℚ → ppm_pixel) (T : Nat) (hT : 1 ≤ T) (d : thread_data)
    (X Y : Nat) :
    erase_tid (rescale_phase_ops c sample_bicubic T d X Y) =
      if d.image.x > c.RESCALE_X ∨ d.image.y > c.RESCALE_Y then
        (loop_range 0 X).flatMap (fun i =>
          erase_tid (rescale_row_ops sample_bicubic 0 d.image X Y i))
      else erase_tid (memcpy_ops 0 d.image.data (d.image.x * d.image.y)) := by
  unfold rescale_phase_ops rescale_ops
  simp only [worker_data_thread_id, worker_data_num_threads, worker_data_image]
  by_cases hb : d.image.x > c.RESCALE_X ∨ d.image.y > c.RESCALE_Y
  · simp only [if_pos hb]
    exact erase_tid_sliced X T hT
      (fun t i => rescale_row_ops sample_bicubic t d.image X Y i) _
      (fun t i => erase_tid_rescale_row_ops sample_bicubic t d.image X Y i)
  · simp only [if_neg hb]
    rw [flatMap_only_zero T hT _ (fun t ht => if_neg ht)]
    rfl

theorem rescale_phase_content (c : constants)
    (sample_bicubic : ppm_image → ℚ → ℚ → ppm_pixel) (T₁ T₂ : Nat) (h₁ : 1 ≤ T₁) (h₂ : 1 ≤ T₂)
    (d : thread_data) (s₁ s₂ : state) (h : same_content s₁ s₂) :
    same_content (run_phase T₁ (rescale_worker c sample_bicubic) d s₁)
      (run_phase T₂ (rescale_worker c sample_bicubic) d s₂) := by
  obtain ⟨hx, hy, hd, hg, ho, hf⟩ := h
  rw [rescale_phase_eq, rescale_phase_eq]
  refine ⟨hx, hy, ?_, hg, ho, hf⟩
  apply apply_ops_val_of_erase_tid _ _ _ _ hd
  rw [erase_tid_rescale_phase_ops c sample_bicubic T₁ h₁,
    erase_tid_rescale_phase_ops c sample_bicubic T₂ h₂, hx, hy]

theorem sample_phase_content (c : constants) (T₁ T₂ : Nat) (h₁ : 1 ≤ T₁) (h₂ : 1 ≤ T₂)
    (d : thread_data) (s₁ s₂ : state) (h : same_content s₁ s₂) :
    same_content (run_phase T₁ (sample_worker c) d s₁) (run_phase T₂ (sample_worker c) d s₂) := by
  obtain ⟨hx, hy, hd, hg, ho, hf⟩ := h
  have e₁ := sample_phase_scaled_image c T₁ d s₁
  have e₂ := sample_phase_scaled_image c T₂ d s₂
  refine ⟨by rw [e₁.1, e₂.1, hx], by rw [e₁.1, e₂.1, hy], by rw [e₁.1, e₂.1, hd], ?_,
    by rw [e₁.2, e₂.2, ho], by rw [sample_phase_fault, sample_phase_fault, hf]⟩
  funext ⟨i, j⟩
  by_cases hA : i < d.p ∧ j < d.q
  · rw [(sample_phase_interior c T₁ d s₁ i j h₁ hA.1 hA.2).1,
      (sample_phase_interior c T₂ d s₂ i j h₂ hA.1 hA.2).1, hd, hy]
  · by_cases hB : i < d.p ∧ j = d.q
    · obtain ⟨hi, rfl⟩ := hB
      rw [(sample_phase_last_column c T₁ d s₁ i h₁ hi).1,
        (sample_phase_last_column c T₂ d s₂ i h₂ hi).1, hd, hx, hy]
    · by_cases hC : i = d.p ∧ j < d.q
      · obtain ⟨rfl, hj⟩ := hC
        rw [(sample_phase_last_row c T₁ d s₁ j h₁ hj).1,
          (sample_phase_last_row c T₂ d s₂ j h₂ hj).1, hd, hx, hy]
      · have hBA : ¬ (i < d.p ∧ j ≤ d.q) := by
          rintro ⟨hi, hj⟩
          rcases Nat.lt_or_eq_of_le hj with hlt | heq
          · exact hA ⟨hi, hlt⟩
          · exact hB ⟨hi, heq⟩
        rw [(sample_phase_other c T₁ d s₁ i j hBA hC).1,
          (sample_phase_other c T₂ d s₂ i j hBA hC).1, hg]

theorem foldl_flatMap_eq {α β σ : Type} (l : List α) (f : α → List β) (g : σ → β → σ) (s : σ) :
    (l.flatMap f).foldl g s = l.foldl (fun acc a => (f a).foldl g acc) s := by
  induction l generalizing s with
  | nil => rfl
  | cons a l ih => rw [List.flatMap_cons, List.foldl_append, List.foldl_cons, ih]

/-- The stamping phase run by `T` workers stamps the cells of `march_cells` one after the
other. -/
theorem march_phase_cells (T : Nat) (d : thread_data) (s : state) :
    run_phase T march_worker d s =
      (march_cells T d).foldl
        (fun acc cell => march_cell (worker_data d cell.1 T) cell.2.1 cell.2.2 acc) s := by
  unfold march_cells
  simp only [foldl_flatMap_eq, List.foldl_map]
  rfl

/-- Whatever the number of workers, the cells are stamped in the same order. -/
theorem march_cells_order (T : Nat) (hT : 1 ≤ T) (d : thread_data) :
    (march_cells T d).map (fun cell => (cell.2.1, cell.2.2)) =
      (loop_range 0 d.p).flatMap (fun i => (loop_range 0 d.q).map (fun j => (i, j))) := by
  unfold march_cells
  simp only [List.map_flatMap, List.map_map]
  rw [← slices_concat d.p T hT, List.flatMap_assoc]
  rfl

/-- Stamping one cell keeps two states with the same contents in step, whoever stamps. -/
theorem march_cell_content (T₁ T₂ t₁ t₂ : Nat) (d : thread_data) (i j : Nat) (s₁ s₂ : state)
    (h : same_content s₁ s₂) :
    same_content (march_cell (worker_data d t₁ T₁) i j s₁)
      (march_cell (worker_data d t₂ T₂) i j s₂) := by
  obtain ⟨hx, hy, hd, hg, ho, hf⟩ := h
  unfold march_cell atlas_entry
  simp only [worker_data_contour_map, worker_data_thread_id, worker_data_step_x,
    worker_data_step_y]
  by_cases hfault : s₁.fault = true
  · have hfault₂ : s₂.fault = true := hf ▸ hfault
    rw [if_pos hfault, if_pos hfault₂]
    exact ⟨hx, hy, hd, hg, ho, hf⟩
  · have hfault₂ : ¬ s₂.fault = true := hf ▸ hfault
    rw [if_neg hfault, if_neg hfault₂]
    by_cases hk : config_code s₁.grid.val i j < CONTOUR_CONFIG_COUNT
    · have hk₂ : config_code s₂.grid.val i j < CONTOUR_CONFIG_COUNT := hg ▸ hk
      simp only [if_pos hk, if_pos hk₂, update_image_eq]
      refine ⟨hx, hy, ?_, hg, ho, hf⟩
      apply apply_ops_val_of_erase_tid _ _ _ _ hd
      rw [erase_tid_update_image_ops t₁, erase_tid_update_image_ops t₂, hy, hg]
    · have hk₂ : ¬ config_code s₂.grid.val i j < CONTOUR_CONFIG_COUNT := hg ▸ hk
      simp only [if_neg hk, if_neg hk₂]
      exact ⟨hx, hy, hd, hg, ho, rfl⟩

theorem foldl_march_cell_content (T₁ T₂ : Nat) (d : thread_data) :
    ∀ (L₁ L₂ : List (Nat × Nat × Nat)) (s₁ s₂ : state),
      L₁.map (fun cell => (cell.2.1, cell.2.2)) = L₂.map (fun cell => (cell.2.1, cell.2.2)) →
      same_content s₁ s₂ →
      same_content
        (L₁.foldl (fun acc cell => march_cell (worker_data d cell.1 T₁) cell.2.1 cell.2.2 acc) s₁)
        (L₂.foldl (fun acc cell => march_cell (worker_data d cell.1 T₂) cell.2.1 cell.2.2 acc) s₂)
  | [], [], _, _, _, h => h
  | [], _ :: _, _, _, hL, _ => by simp at hL
  | _ :: _, [], _, _, hL, _ => by simp at hL
  | c₁ :: L₁, c₂ :: L₂, s₁, s₂, hL, h => by
    simp only [List.map_cons, List.cons.injEq, Prod.mk.injEq] at hL
    obtain ⟨⟨hi, hj⟩, hL⟩ := hL
    simp only [List.foldl_cons]
    apply foldl_march_cell_content T₁ T₂ d L₁ L₂ _ _ hL
    rw [hi, hj]
    exact march_cell_content T₁ T₂ c₁.1 c₂.1 d c₂.2.1 c₂.2.2 s₁ s₂ h

theorem march_phase_content (T₁ T₂ : Nat) (h₁ : 1 ≤ T₁) (h₂ : 1 ≤ T₂)
    (d : thread_data) (s₁ s₂ : state) (h : same_content s₁ s₂) :
    same_content (run_phase T₁ march_worker d s₁) (run_phase T₂ march_worker d s₂) := by
  rw [march_phase_cells, march_phase_cells]
  apply foldl_march_cell_content T₁ T₂ d _ _ s₁ s₂ _ h
  rw [march_cells_order T₁ h₁, march_cells_order T₂ h₂]

theorem foldl_write_worker_skip (T : Nat) (d : thread_data) (l : List Nat)
    (hl : ∀ t ∈ l, t ≠ 0) (s : state) :
    l.foldl (fun acc t => write_worker (worker_data d t T) acc) s = s := by
  induction l generalizing s with
  | nil => rfl
  | cons a l ih =>
    have ha : ¬ (worker_data d a T).thread_id = 0 := hl a (List.mem_cons_self a l)
    rw [List.foldl_cons]
    unfold write_worker
    rw [if_neg ha]
    exact ih (fun t ht => hl t (List.mem_cons_of_mem a ht)) s

/-- Of the `T ≥ 1` workers, only worker 0 calls `write_ppm`. -/
theorem write_phase_eq (T : Nat) (hT : 1 ≤ T) (d : thread_data) (s : state) :
    run_phase T write_worker d s = write_worker (worker_data d 0 T) s := by
  unfold run_phase for_loop
  obtain ⟨n, rfl⟩ : ∃ n, T = n + 1 := ⟨T - 1, by omega⟩
  rw [show n + 1 - 0 = n + 1 from rfl, List.range'_succ, List.foldl_cons]
  apply foldl_write_worker_skip
  intro t ht
  rw [List.mem_range'_1] at ht
  omega

theorem write_phase_content (T₁ T₂ : Nat) (h₁ : 1 ≤ T₁) (h₂ : 1 ≤ T₂)
    (d : thread_data) (s₁ s₂ : state) (h : same_content s₁ s₂) :
    same_content (run_phase T₁ write_worker d s₁) (run_phase T₂ write_worker d s₂) := by
  obtain ⟨hx, hy, hd, hg, ho, hf⟩ := h
  rw [write_phase_eq T₁ h₁, write_phase_eq T₂ h₂]
  unfold write_worker
  simp only [worker_data_thread_id, if_true]
  exact ⟨hx, hy, hd, hg, by rw [ho, hx, hy, hd], hf⟩

/-- Whatever the numbers of workers `T₁, T₂ ≥ 1`, two runs from the same state end with the
same contents: either both are stopped by a read outside the contour map, at the same cell, or
both reach the fourth phase and hand the same image to `write_ppm`. -/
theorem run_threads_content (c : constants) (sample_bicubic : ppm_image → ℚ → ℚ → ppm_pixel)
    (T₁ T₂ : Nat) (h₁ : 1 ≤ T₁) (h₂ : 1 ≤ T₂) (d : thread_data) (s : state) :
    same_content (run_threads c sample_bicubic T₁ d s) (run_threads c sample_bicubic T₂ d s) := by
  have hm := march_phase_content T₁ T₂ h₁ h₂ d _ _
    (sample_phase_content c T₁ T₂ h₁ h₂ d _ _
      (rescale_phase_content c sample_bicubic T₁ T₂ h₁ h₂ d s s ⟨rfl, rfl, rfl, rfl, rfl, rfl⟩))
  unfold run_threads
  simp only []
  rw [← hm.2.2.2.2.2]
  by_cases hf : (run_phase T₁ march_worker d (run_phase T₁ (sample_worker c) d
      (run_phase T₁ (rescale_worker c sample_bicubic) d s))).fault = true
  · rw [if_pos hf, if_pos hf]
    exact hm
  · rw [if_neg hf, if_neg hf]
    exact write_phase_content T₁ T₂ h₁ h₂ d _ _ hm

/-! ## A read outside the contour map stops the stamping phase -/

theorem foldl_march_cell_faulted (T : Nat) (d : thread_data) :
    ∀ (L : List (Nat × Nat × Nat)) (s : state), s.fault = true →
      (L.foldl (fun acc cell => march_cell (worker_data d cell.1 T) cell.2.1 cell.2.2 acc) s).fault
        = true
  | [], _, h => h
  | cell :: L, s, h => by
    rw [List.foldl_cons]
    apply foldl_march_cell_faulted T d L
    unfold march_cell
    rw [if_pos h]
    exact h

theorem foldl_march_cell_faults (T : Nat) (d : thread_data) (i j : Nat) :
    ∀ (L : List (Nat × Nat × Nat)) (s : state),
      (∃ cell, cell ∈ L ∧ cell.2.1 = i ∧ cell.2.2 = j) →
      ¬ config_code s.grid.val i j < CONTOUR_CONFIG_COUNT →
      (L.foldl (fun acc cell => march_cell (worker_data d cell.1 T) cell.2.1 cell.2.2 acc) s).fault
        = true
  | [], _, h, _ => by
    obtain ⟨_, hc, _⟩ := h
    exact absurd hc (List.not_mem_nil _)
  | cell :: L, s, h, hk => by
    rw [List.foldl_cons]
    by_cases hf : s.fault = true
    · apply foldl_march_cell_faulted T d L
      unfold march_cell
      rw [if_pos hf]
      exact hf
    · obtain ⟨c, hc, hci, hcj⟩ := h
      rcases List.mem_cons.mp hc with rfl | hc
      · apply foldl_march_cell_faulted T d L
        unfold march_cell atlas_entry
        rw [if_neg hf, hci, hcj]
        simp only [if_neg hk]
      · apply foldl_march_cell_faults T d i j L _ ⟨c, hc, hci, hcj⟩
        obtain ⟨_, _, _, hg, _⟩ := march_cell_within (worker_data d cell.1 T) cell.2.1 cell.2.2 s
        rw [hg]
        exact hk

/-- A cell whose code lies outside the contour map stops the stamping phase, whatever the number
of workers: the phase ends with the fault flag set. -/
theorem march_phase_faults (T : Nat) (hT : 1 ≤ T) (d : thread_data) (s : state) (i j : Nat)
    (hi : i < d.p) (hj : j < d.q)
    (hk : ¬ config_code s.grid.val i j < CONTOUR_CONFIG_COUNT) :
    (run_phase T march_worker d s).fault = true := by
  rw [march_phase_cells]
  apply foldl_march_cell_faults T d i j _ s _ hk
  have hmem : (i, j) ∈ (march_cells T d).map (fun cell => (cell.2.1, cell.2.2)) := by
    rw [march_cells_order T hT d]
    simp only [List.mem_flatMap, List.mem_map]
    exact ⟨i, mem_loop_range.mpr ⟨Nat.zero_le _, by simpa using hi⟩, j,
      mem_loop_range.mpr ⟨Nat.zero_le _, by simpa using hj⟩, rfl⟩
  obtain ⟨cell, hc, he⟩ := List.mem_map.mp hmem
  simp only [Prod.mk.injEq] at he
  exact ⟨cell, hc, he.1, he.2⟩

/-! ## Work assignment -/

/-- C2: for every extent `N` and worker count `T` with `1 ≤ T ≤ N`, the ranges
`[start_t, end_t)` of the workers `t = 0 .. T-1` partition `[0, N)` exactly: `start_0 = 0`,
`end_{T-1} = N`, `end_t = start_{t+1}`, every index below `N` lies in the range of some worker,
every index of a range is below `N`, and no index lies in the ranges of two workers. -/
theorem work_assignment_partition (N T : Nat) (hT : 1 ≤ T) (_hTN : T ≤ N) :
    slice_start 0 N T = 0 ∧ slice_end (T - 1) N T = N ∧
    (∀ t, t + 1 < T → slice_end t N T = slice_start (t + 1) N T) ∧
    (∀ k, k < N ↔ ∃ t, t < T ∧ slice_start t N T ≤ k ∧ k < slice_end t N T) ∧
    (∀ t u k, t < T → u < T → slice_start t N T ≤ k → k < slice_end t N T →
      slice_start u N T ≤ k → k < slice_end u N T → t = u) := by
  refine ⟨slice_start_zero N T, ?_, ?_, ?_, ?_⟩
  · rw [slice_end_eq_start_succ N T (T - 1) (by omega)]
    have e : T - 1 + 1 = T := by omega
    rw [e]
    exact slice_start_self N T hT
  · intro t ht
    exact slice_end_eq_start_succ N T t (by omega)
  · intro k
    constructor
    · intro hk
      obtain ⟨h1, h2, h3⟩ := slice_owner_spec k N T hk hT
      exact ⟨slice_owner k N T, h1, h2, h3⟩
    · rintro ⟨t, _, _, h3⟩
      exact Nat.lt_of_lt_of_le h3 (slice_end_le N T t)
  · intro t u k ht hu h1 h2 h3 h4
    exact slice_disjoint N T ht hu h1 h2 h3 h4

/-- Witness of C2 at `N = 5`, `T = 2`. -/
theorem work_assignment_partition_witness :
    (1 ≤ 2 ∧ 2 ≤ 5) ∧
    slice_start 0 5 2 = 0 ∧ slice_end (2 - 1) 5 2 = 5 ∧
    (∀ t, t + 1 < 2 → slice_end t 5 2 = slice_start (t + 1) 5 2) ∧
    (∀ k, k < 5 ↔ ∃ t, t < 2 ∧ slice_start t 5 2 ≤ k ∧ k < slice_end t 5 2) ∧
    (∀ t u k, t < 2 → u < 2 → slice_start t 5 2 ≤ k → k < slice_end t 5 2 →
      slice_start u 5 2 ≤ k → k < slice_end u 5 2 → t = u) :=
  ⟨by decide, work_assignment_partition 5 2 (by decide) (by decide)⟩

/-- C3: for every `N`, every `T` with `1 ≤ T ≤ N` and every worker `t < T`, the number of
indices of the range of worker `t`, `end_t - start_t`, is at most `ceil(N / T)`, written
`(N + T - 1) / T`. -/
theorem work_assignment_size_bound (N T t : Nat) (hT : 1 ≤ T) (_hTN : T ≤ N) (_ht : t < T) :
    slice_end t N T - slice_start t N T ≤ (N + T - 1) / T :=
  slice_size_le N T t hT

/-- Witness of C3 at `N = 5`, `T = 2`, `t = 1`: the range is `[2, 5)`, of size `3 = ceil(5/2)`. -/
theorem work_assignment_size_bound_witness :
    (1 ≤ 2 ∧ 2 ≤ 5 ∧ 1 < 2) ∧ slice_end 1 5 2 - slice_start 1 5 2 ≤ (5 + 2 - 1) / 2 :=
  ⟨by decide, work_assignment_size_bound 5 2 1 (by decide) (by decide) (by decide)⟩

/-! ## Grid sampler -/

/-- C4: after the `T ≥ 1` workers have run the sampling phase, for every cell `(i, j)` with
`i < p` and `j < q`, `grid[i][j]` is 1 if the integer mean `(red + green + blue) / 3` of the
working-image pixel at row `i * step_x`, column `j * step_y` is at most `SIGMA`, and 0
otherwise. -/
theorem sample_interior_classification (c : constants) (T : Nat) (d : thread_data) (s : state)
    (i j : Nat) (hT : 1 ≤ T) (hi : i < d.p) (hj : j < d.q) :
    (run_phase T (sample_worker c) d s).grid.val (i, j) =
      if ((s.scaled_image.data.val ((i * d.step_x) * s.scaled_image.y + j * d.step_y)).red.val
          + (s.scaled_image.data.val ((i * d.step_x) * s.scaled_image.y + j * d.step_y)).green.val
          + (s.scaled_image.data.val ((i * d.step_x) * s.scaled_image.y + j * d.step_y)).blue.val)
          / 3 ≤ c.SIGMA
      then 1 else 0 := by
  rw [(sample_phase_interior c T d s i j hT hi hj).1, threshold_eq]

/-- Witness of C4: a dark 2 x 2 image sampled by one worker. -/
theorem sample_interior_classification_witness :
    (1 ≤ 1 ∧ 0 < data_2x2.p ∧ 0 < data_2x2.q) ∧
    (run_phase 1 (sample_worker program_constants) data_2x2 (state_2x2 black)).grid.val (0, 0) =
      if (((state_2x2 black).scaled_image.data.val
            ((0 * data_2x2.step_x) * (state_2x2 black).scaled_image.y + 0 * data_2x2.step_y)).red.val
          + ((state_2x2 black).scaled_image.data.val
            ((0 * data_2x2.step_x) * (state_2x2 black).scaled_image.y + 0 * data_2x2.step_y)).green.val
          + ((state_2x2 black).scaled_image.data.val
            ((0 * data_2x2.step_x) * (state_2x2 black).scaled_image.y + 0 * data_2x2.step_y)).blue.val)
          / 3 ≤ program_constants.SIGMA
      then 1 else 0 :=
  ⟨by decide,
    sample_interior_classification program_constants 1 data_2x2 (state_2x2 black) 0 0
      (by decide) (by decide) (by decide)⟩

/-- C5, as stated, fails: a 2 x 2 image of pixels `(200, 200, 200)`, whose luminance
`(200 + 200 + 200) / 3` is exactly `SIGMA = 200`, sampled by one worker, gives `grid[0][0] = 1`
("inside"), not 0. -/
theorem threshold_at_sigma_counterexample :
    (((state_2x2 grey200).scaled_image.data.val 0).red.val
      + ((state_2x2 grey200).scaled_image.data.val 0).green.val
      + ((state_2x2 grey200).scaled_image.data.val 0).blue.val) / 3 = program_constants.SIGMA ∧
    (run_phase 1 (sample_worker program_constants) data_2x2 (state_2x2 grey200)).grid.val (0, 0)
      = 1 ∧
    (run_phase 1 (sample_worker program_constants) data_2x2 (state_2x2 grey200)).grid.val (0, 0)
      ≠ 0 := by
  decide

/-- C5, amended: a sampled pixel whose luminance `(red + green + blue) / 3` is exactly `SIGMA`
is classified "inside" (grid value 1), and so is a pixel whose luminance is `SIGMA - 1`. -/
theorem threshold_boundary (c : constants) (T : Nat) (d : thread_data) (s : state)
    (i j : Nat) (hT : 1 ≤ T) (hi : i < d.p) (hj : j < d.q)
    (hlum :
      ((s.scaled_image.data.val (i * d.step_x * s.scaled_image.y + j * d.step_y)).red.val
        + (s.scaled_image.data.val (i * d.step_x * s.scaled_image.y + j * d.step_y)).green.val
        + (s.scaled_image.data.val (i * d.step_x * s.scaled_image.y + j * d.step_y)).blue.val) / 3
        = c.SIGMA ∨
      ((s.scaled_image.data.val (i * d.step_x * s.scaled_image.y + j * d.step_y)).red.val
        + (s.scaled_image.data.val (i * d.step_x * s.scaled_image.y + j * d.step_y)).green.val
        + (s.scaled_image.data.val (i * d.step_x * s.scaled_image.y + j * d.step_y)).blue.val) / 3
        = c.SIGMA - 1) :
    (run_phase T (sample_worker c) d s).grid.val (i, j) = 1 := by
  rw [(sample_phase_interior c T d s i j hT hi hj).1, threshold_eq]
  rw [if_pos (by omega)]

/-- Witness of the amended C5: luminance exactly `SIGMA = 200`. -/
theorem threshold_boundary_witness :
    (1 ≤ 1 ∧ 0 < data_2x2.p ∧ 0 < data_2x2.q ∧
      (grey200.red.val + grey200.green.val + grey200.blue.val) / 3 = program_constants.SIGMA) ∧
    (run_phase 1 (sample_worker program_constants) data_2x2 (state_2x2 grey200)).grid.val (0, 0)
      = 1 :=
  ⟨by decide,
    threshold_boundary program_constants 1 data_2x2 (state_2x2 grey200) 0 0
      (by decide) (by decide) (by decide) (Or.inl (by decide))⟩

/-- C6 fails on the code: the corner cell `(p, q)` is stored by no worker.  For a white 2 x 2
working image (`p = q = 1`) sampled by one worker, the cells `(0,0)`, `(0,1)`, `(1,0)` are each
written once by worker 0, the cell `(1,1)` has no writer and still holds the byte 255 it held
before the phase, and the stamper's code for the cell `(0,0)`, which reads `grid[1][1]`, is
`(2 * 255) % 256 = 254`. -/
theorem grid_corner_never_written :
    (run_phase 1 (sample_worker program_constants) data_2x2 (state_2x2 white)).grid.writers (0, 0)
      = [0] ∧
    (run_phase 1 (sample_worker program_constants) data_2x2 (state_2x2 white)).grid.writers (0, 1)
      = [0] ∧
    (run_phase 1 (sample_worker program_constants) data_2x2 (state_2x2 white)).grid.writers (1, 0)
      = [0] ∧
    (run_phase 1 (sample_worker program_constants) data_2x2 (state_2x2 white)).grid.writers (1, 1)
      = [] ∧
    (run_phase 1 (sample_worker program_constants) data_2x2 (state_2x2 white)).grid.val (1, 1)
      = 255 ∧
    config_code
      (run_phase 1 (sample_worker program_constants) data_2x2 (state_2x2 white)).grid.val 0 0
      = 254 := by
  decide

/-- C7 fails on the code when the working image is not square: line 140 reads column `x - 1`
instead of the last column `y - 1`.  For the image of 2 rows and 4 columns whose last column is
black and whose other pixels are white (`p = 1`, `q = 2`, step 2), the pixel of row 0 in the
last column (index `0 * 4 + 3`) is classified 1, but the sampling phase leaves
`grid[0][q] = 0`: it classified the white pixel at index `0 * 2 * 4 + 2 - 1 = 1`. -/
theorem last_column_sample_not_last_pixel :
    state_2x4.scaled_image.data.val (0 * 4 + 3) = black ∧
    threshold program_constants (state_2x4.scaled_image.data.val (0 * 4 + 3)) = 1 ∧
    (run_phase 1 (sample_worker program_constants) data_2x4 state_2x4).grid.val (0, data_2x4.q)
      = 0 ∧
    (run_phase 1 (sample_worker program_constants) data_2x4 state_2x4).grid.val (0, data_2x4.q)
      = threshold program_constants (state_2x4.scaled_image.data.val 1) := by
  decide

/-! ## Contour stamper -/

/-- C8: when the four corners `a = grid[i][j]`, `b = grid[i][j+1]`, `c = grid[i+1][j+1]`,
`d = grid[i+1][j]` of a cell are bits, the stamper's code is `k = 8a + 4b + 2c + d`, it lies in
`0 .. 15`, two cells with the same code have the same four corners (the map from corner
patterns to codes is injective), the code is 0 exactly when all corners are 0 and 15 exactly
when all corners are 1; and for the grid `[[1,0],[0,0]]` the code of the cell `(0,0)` is 8. -/
theorem config_code_injective (g g' : Nat × Nat → uchar) (i j i' j' : Nat)
    (hg : (g (i, j)).val ≤ 1 ∧ (g (i, j + 1)).val ≤ 1 ∧ (g (i + 1, j + 1)).val ≤ 1 ∧
      (g (i + 1, j)).val ≤ 1)
    (hg' : (g' (i', j')).val ≤ 1 ∧ (g' (i', j' + 1)).val ≤ 1 ∧ (g' (i' + 1, j' + 1)).val ≤ 1 ∧
      (g' (i' + 1, j')).val ≤ 1) :
    config_code g i j = 8 * (g (i, j)).val + 4 * (g (i, j + 1)).val
        + 2 * (g (i + 1, j + 1)).val + (g (i + 1, j)).val ∧
    config_code g i j ≤ 15 ∧
    (config_code g i j = config_code g' i' j' →
      g (i, j) = g' (i', j') ∧ g (i, j + 1) = g' (i', j' + 1) ∧
      g (i + 1, j + 1) = g' (i' + 1, j' + 1) ∧ g (i + 1, j) = g' (i' + 1, j')) ∧
    (config_code g i j = 0 ↔
      g (i, j) = 0 ∧ g (i, j + 1) = 0 ∧ g (i + 1, j + 1) = 0 ∧ g (i + 1, j) = 0) ∧
    (config_code g i j = 15 ↔
      g (i, j) = 1 ∧ g (i, j + 1) = 1 ∧ g (i + 1, j + 1) = 1 ∧ g (i + 1, j) = 1) ∧
    config_code grid_1000 0 0 = 8 := by
  obtain ⟨h1, h2, h3, h4⟩ := hg
  obtain ⟨h1', h2', h3', h4'⟩ := hg'
  have hk : config_code g i j = 8 * (g (i, j)).val + 4 * (g (i, j + 1)).val
      + 2 * (g (i + 1, j + 1)).val + (g (i + 1, j)).val := by
    unfold config_code
    omega
  have hk' : config_code g' i' j' = 8 * (g' (i', j')).val + 4 * (g' (i', j' + 1)).val
      + 2 * (g' (i' + 1, j' + 1)).val + (g' (i' + 1, j')).val := by
    unfold config_code
    omega
  refine ⟨hk, by omega, ?_, ?_, ?_, by decide⟩
  · intro h
    rw [hk, hk'] at h
    refine ⟨Fin.ext ?_, Fin.ext ?_, Fin.ext ?_, Fin.ext ?_⟩ <;> omega
  · rw [hk]
    constructor
    · intro h
      refine ⟨Fin.ext ?_, Fin.ext ?_, Fin.ext ?_, Fin.ext ?_⟩ <;> simp <;> omega
    · rintro ⟨e1, e2, e3, e4⟩
      rw [e1, e2, e3, e4]
      rfl
  · rw [hk]
    constructor
    · intro h
      refine ⟨Fin.ext ?_, Fin.ext ?_, Fin.ext ?_, Fin.ext ?_⟩ <;> simp <;> omega
    · rintro ⟨e1, e2, e3, e4⟩
      rw [e1, e2, e3, e4]
      rfl

/-- Witness of C8: the grid `[[1,0],[0,0]]` at the cell `(0,0)`, compared with itself. -/
theorem config_code_injective_witness :
    config_code grid_1000 0 0 = 8 * (grid_1000 (0, 0)).val + 4 * (grid_1000 (0, 0 + 1)).val
        + 2 * (grid_1000 (0 + 1, 0 + 1)).val + (grid_1000 (0 + 1, 0)).val ∧
    config_code grid_1000 0 0 ≤ 15 ∧
    (config_code grid_1000 0 0 = config_code grid_1000 0 0 →
      grid_1000 (0, 0) = grid_1000 (0, 0) ∧ grid_1000 (0, 0 + 1) = grid_1000 (0, 0 + 1) ∧
      grid_1000 (0 + 1, 0 + 1) = grid_1000 (0 + 1, 0 + 1) ∧
      grid_1000 (0 + 1, 0) = grid_1000 (0 + 1, 0)) ∧
    (config_code grid_1000 0 0 = 0 ↔
      grid_1000 (0, 0) = 0 ∧ grid_1000 (0, 0 + 1) = 0 ∧ grid_1000 (0 + 1, 0 + 1) = 0 ∧
      grid_1000 (0 + 1, 0) = 0) ∧
    (config_code grid_1000 0 0 = 15 ↔
      grid_1000 (0, 0) = 1 ∧ grid_1000 (0, 0 + 1) = 1 ∧ grid_1000 (0 + 1, 0 + 1) = 1 ∧
      grid_1000 (0 + 1, 0) = 1) ∧
    config_code grid_1000 0 0 = 8 :=
  config_code_injective grid_1000 grid_1000 0 0 0 0 (by decide) (by decide)

/-- C9 fails on the code when an atlas entry is not square: line 42 addresses the entry with
the stride `contour->x` (its number of rows) instead of its row length `contour->y`.  For the
row-major entry of 2 rows and 3 columns stamped at `(0, 0)` on an image of 2 rows and 3 columns,
the image pixel `(1, 0)`, at index `1 * 3 + 0`, receives the entry's pixel at index
`2 * 1 + 0 = 2`, which is the entry's pixel `(0, 2)`, and not the entry's pixel `(1, 0)`, which
is at index `1 * 3 + 0 = 3`. -/
theorem update_image_wrong_stride :
    (update_image 0 image_2x3 contour_2x3 (0 * 2) (0 * 3)).data.val ((0 * 2 + 1) * 3 + (0 * 3 + 0))
      = contour_2x3.data (0 * 3 + 2) ∧
    (update_image 0 image_2x3 contour_2x3 (0 * 2) (0 * 3)).data.val ((0 * 2 + 1) * 3 + (0 * 3 + 0))
      ≠ contour_2x3.data (1 * 3 + 0) := by
  decide

/-! ## Rescaler -/

/-- C10: when the rescale branch is taken (the source exceeds `RESCALE_X` or `RESCALE_Y`), after
the `T ≥ 1` workers have run the rescale phase, every pixel `(i, j)` of the working image, with
`i < x` and `j < y`, at index `i * y + j`, equals `sample_bicubic(source, i/(x-1), j/(y-1))`,
and it was written during the phase exactly once, by exactly one worker `t < T`. -/
theorem rescale_contract (c : constants) (sample_bicubic : ppm_image → ℚ → ℚ → ppm_pixel)
    (T : Nat) (d : thread_data) (s : state) (i j : Nat) (hT : 1 ≤ T)
    (hb : d.image.x > c.RESCALE_X ∨ d.image.y > c.RESCALE_Y)
    (hi : i < s.scaled_image.x) (hj : j < s.scaled_image.y) :
    (run_phase T (rescale_worker c sample_bicubic) d s).scaled_image.data.val
        (i * s.scaled_image.y + j) =
      sample_bicubic d.image ((i : ℚ) / ((s.scaled_image.x : ℚ) - 1))
        ((j : ℚ) / ((s.scaled_image.y : ℚ) - 1)) ∧
    ∃ t, t < T ∧
      (run_phase T (rescale_worker c sample_bicubic) d s).scaled_image.data.writers
          (i * s.scaled_image.y + j) =
        t :: s.scaled_image.data.writers (i * s.scaled_image.y + j) := by
  rw [rescale_phase_eq]
  have h := apply_ops_of_filter_single _ s.scaled_image.data _ _
    (rescale_phase_filter c sample_bicubic T d s.scaled_image.x s.scaled_image.y i j hT hb hi hj)
  exact ⟨h.1, slice_owner i s.scaled_image.x T,
    (slice_owner_spec i s.scaled_image.x T hi hT).1, h.2⟩

/-- Witness of C10: a 3 x 3 source rescaled to 2 x 2 by two workers, at the pixel `(1, 1)`. -/
theorem rescale_contract_witness :
    (1 ≤ 2 ∧
      (data_3x3_source.image.x > constants_2x2.RESCALE_X ∨
        data_3x3_source.image.y > constants_2x2.RESCALE_Y) ∧
      1 < (state_2x2 white).scaled_image.x ∧ 1 < (state_2x2 white).scaled_image.y) ∧
    ((run_phase 2 (rescale_worker constants_2x2 corner_sampler) data_3x3_source
        (state_2x2 white)).scaled_image.data.val (1 * (state_2x2 white).scaled_image.y + 1) =
      corner_sampler data_3x3_source.image
        (((1 : Nat) : ℚ) / (((state_2x2 white).scaled_image.x : ℚ) - 1))
        (((1 : Nat) : ℚ) / (((state_2x2 white).scaled_image.y : ℚ) - 1)) ∧
    ∃ t, t < 2 ∧
      (run_phase 2 (rescale_worker constants_2x2 corner_sampler) data_3x3_source
          (state_2x2 white)).scaled_image.data.writers
          (1 * (state_2x2 white).scaled_image.y + 1) =
        t :: (state_2x2 white).scaled_image.data.writers
          (1 * (state_2x2 white).scaled_image.y + 1)) :=
  ⟨by decide,
    rescale_contract constants_2x2 corner_sampler 2 data_3x3_source (state_2x2 white) 1 1
      (by decide) (by decide) (by decide) (by decide)⟩

/-! ## Skip branch of the rescaler -/

/-- The stores of `memcpy` that hit the location `k`. -/
theorem memcpy_ops_filter (tid : Nat) (src : Nat → ppm_pixel) (n k : Nat) :
    (memcpy_ops tid src n).filter (fun w => decide (w.key = k)) =
      if k < n then [{ tid := tid, key := k, value := src k }] else [] := by
  unfold memcpy_ops
  by_cases hk : k < n
  · rw [if_pos hk]
    exact filter_key_hit (loop_range 0 n) _ k k (nodup_loop_range _ _)
      (mem_loop_range.mpr ⟨Nat.zero_le _, hk⟩) rfl (fun _ _ h => h)
  · rw [if_neg hk]
    apply filter_key_miss
    intro i hi h
    simp only at h
    exact hk (h ▸ (mem_loop_range.mp hi).2)

/-- When the rescale is skipped, the phase run by `T ≥ 1` workers is the copy made by worker 0. -/
theorem rescale_phase_skip (c : constants) (sample_bicubic : ppm_image → ℚ → ℚ → ppm_pixel)
    (T : Nat) (hT : 1 ≤ T) (d : thread_data) (s : state)
    (hb : ¬ (d.image.x > c.RESCALE_X ∨ d.image.y > c.RESCALE_Y)) :
    run_phase T (rescale_worker c sample_bicubic) d s =
      s.with_data (apply_ops (memcpy_ops 0 d.image.data (d.image.x * d.image.y))
        s.scaled_image.data) := by
  rw [rescale_phase_eq]
  congr 2
  unfold rescale_phase_ops rescale_ops
  simp only [worker_data_thread_id, worker_data_image, if_neg hb]
  rw [flatMap_only_zero T hT _ (fun t ht => if_neg ht)]
  rfl

/-- The working buffer after a skipped rescale: the first `x * y` locations hold the source's
pixels in the source's order, stored once by worker 0; the others are untouched. -/
theorem rescale_phase_skip_pixel (c : constants)
    (sample_bicubic : ppm_image → ℚ → ℚ → ppm_pixel) (T : Nat) (hT : 1 ≤ T) (d : thread_data)
    (s : state) (hb : ¬ (d.image.x > c.RESCALE_X ∨ d.image.y > c.RESCALE_Y)) (k : Nat) :
    (run_phase T (rescale_worker c sample_bicubic) d s).scaled_image.data.val k =
        (if k < d.image.x * d.image.y then d.image.data k else s.scaled_image.data.val k) ∧
      (run_phase T (rescale_worker c sample_bicubic) d s).scaled_image.data.writers k =
        (if k < d.image.x * d.image.y then 0 :: s.scaled_image.data.writers k
          else s.scaled_image.data.writers k) := by
  rw [rescale_phase_skip c sample_bicubic T hT d s hb]
  have hf := memcpy_ops_filter 0 d.image.data (d.image.x * d.image.y) k
  by_cases hk : k < d.image.x * d.image.y
  · rw [if_pos hk] at hf
    rw [if_pos hk, if_pos hk]
    exact apply_ops_of_filter_single _ s.scaled_image.data k _ hf
  · rw [if_neg hk] at hf
    rw [if_neg hk, if_neg hk]
    exact apply_ops_of_filter_nil _ s.scaled_image.data k hf

/-- C11 fails on the code when the source's row length differs from the working image's: the
skip branch is one flat `memcpy` of `x * y` pixels.  For the 2 x 2 source whose pixel `(r, c)`
is the grey level `r * 2 + c`, run with the program's constants (working image 2048 x 2048), the
rescale is skipped, but the working pixel `(1, 0)`, at index `1 * 2048 + 0`, is written by no
worker and still holds the white pixel it held before, not the source's pixel `(1, 0)` (grey
level 2, at source index `1 * 2 + 0`); that source pixel is at the working index 2, which is the
working pixel `(0, 2)`. -/
theorem skip_copy_misplaces_rows :
    ¬ (source_2x2.x > program_constants.RESCALE_X ∨
        source_2x2.y > program_constants.RESCALE_Y) ∧
    skip_run_2x2.scaled_image.y = 2048 ∧
    source_2x2.data (1 * 2 + 0) = grey 2 ∧
    skip_run_2x2.scaled_image.data.val (1 * 2048 + 0) = white ∧
    skip_run_2x2.scaled_image.data.writers (1 * 2048 + 0) = [] ∧
    skip_run_2x2.scaled_image.data.val (1 * 2048 + 0) ≠ source_2x2.data (1 * 2 + 0) ∧
    skip_run_2x2.scaled_image.data.val (0 * 2048 + 2) = source_2x2.data (1 * 2 + 0) := by
  decide

/-! ## End-to-end scenario -/

/-- C12 fails on the code: in the all-white scenario (`SIGMA = 200`, step 2, target 4 x 4, white
4 x 4 source) the eight grid cells that the sampling phase writes are 0 and the cells `(0,0)`,
`(0,1)`, `(1,0)` have the code 0 and are stamped with the entry 0, but the corner cell `(2, 2)`
of the 3 x 3 grid is written by no worker: it still holds the byte 255 it held before, so the
cell `(1, 1)` has the code `(2 * 255) % 256 = 254`, not 0; the read `contour_map[254]` is
outside the 16 entries and stops the run, and the block of the cell `(1, 1)` is not stamped
with the entry 0 (it keeps the white pixels of the source). -/
theorem all_white_corner_not_zero :
    (all_white_sampled.grid.val (0, 0) = 0 ∧ all_white_sampled.grid.val (0, 1) = 0 ∧
      all_white_sampled.grid.val (0, 2) = 0 ∧ all_white_sampled.grid.val (1, 0) = 0 ∧
      all_white_sampled.grid.val (1, 1) = 0 ∧ all_white_sampled.grid.val (1, 2) = 0 ∧
      all_white_sampled.grid.val (2, 0) = 0 ∧ all_white_sampled.grid.val (2, 1) = 0) ∧
    all_white_sampled.grid.val (2, 2) = 255 ∧
    all_white_sampled.grid.writers (2, 2) = [] ∧
    (config_code all_white_sampled.grid.val 0 0 = 0 ∧
      config_code all_white_sampled.grid.val 0 1 = 0 ∧
      config_code all_white_sampled.grid.val 1 0 = 0) ∧
    config_code all_white_sampled.grid.val 1 1 = 254 ∧
    (atlas_entry all_white_data.contour_map
      (config_code all_white_sampled.grid.val 1 1)).isNone = true ∧
    (run_phase 2 march_worker all_white_data all_white_sampled).fault = true ∧
    ((run_phase 2 march_worker all_white_data all_white_sampled).scaled_image.data.val
        ((0 * 2 + 0) * 4 + (0 * 2 + 0)) = grey 0 ∧
      (run_phase 2 march_worker all_white_data all_white_sampled).scaled_image.data.val
        ((0 * 2 + 0) * 4 + (1 * 2 + 0)) = grey 0 ∧
      (run_phase 2 march_worker all_white_data all_white_sampled).scaled_image.data.val
        ((1 * 2 + 0) * 4 + (0 * 2 + 0)) = grey 0) ∧
    (run_phase 2 march_worker all_white_data all_white_sampled).scaled_image.data.val
      ((1 * 2 + 0) * 4 + (1 * 2 + 0)) = white ∧
    (run_phase 2 march_worker all_white_data all_white_sampled).scaled_image.data.writers
      ((1 * 2 + 0) * 4 + (1 * 2 + 0)) = [0] := by
  decide

/-! ## Command line -/

theorem run_phase_zero (phase : thread_data → state → state) (d : thread_data) (s : state) :
    run_phase 0 phase d s = s := rfl

theorem run_threads_zero (c : constants) (sample_bicubic : ppm_image → ℚ → ℚ → ppm_pixel)
    (d : thread_data) (s : state) : run_threads c sample_bicubic 0 d s = s := by
  unfold run_threads
  simp only [run_phase_zero, ite_self]

/-- With the three arguments supplied and a negative thread count `main` has no exit code: the
arrays of lines 192-193 get a negative size. -/
theorem main_negative_threads (c : constants) (sample_bicubic : ppm_image → ℚ → ℚ → ppm_pixel)
    (argc : Nat) (num_threads : Int) (image : ppm_image) (contour_map : Nat → ppm_image)
    (scaled_init : Nat → ppm_pixel) (grid_init : Nat × Nat → uchar)
    (ha : ¬ argc < 4) (hT : num_threads < 0) :
    (main c sample_bicubic argc num_threads image contour_map scaled_init
        grid_init).exit_code = none := by
  unfold main
  rw [if_neg ha, if_pos hT]

/-- C13, as stated, fails: with the three arguments supplied (`argc = 4`) and a thread count
that parses to 0, which is below 1, `main` returns 0, not a non-zero exit code. -/
theorem main_zero_threads_counterexample :
    (0 : Int) < 1 ∧
    (main program_constants corner_sampler 4 0 white_source_4x4 (fun _ => empty_image)
        (fun _ => white) (fun _ => 255)).exit_code = some 0 := by
  decide

/-- C13, amended: when fewer than three arguments are supplied (`argc < 4`), `main` returns 1,
launches no worker and hands no image to `write_ppm`; when the three arguments are there and
the thread count parses to 0, `main` launches no worker, hands no image to `write_ppm` and
returns 0. -/
theorem main_usage (c : constants) (sample_bicubic : ppm_image → ℚ → ℚ → ppm_pixel)
    (argc : Nat) (num_threads : Int) (image : ppm_image) (contour_map : Nat → ppm_image)
    (scaled_init : Nat → ppm_pixel) (grid_init : Nat × Nat → uchar)
    (h : argc < 4 ∨ num_threads = 0) :
    (main c sample_bicubic argc num_threads image contour_map scaled_init
        grid_init).threads_created = 0 ∧
    (main c sample_bicubic argc num_threads image contour_map scaled_init
        grid_init).output = [] ∧
    (argc < 4 →
      (main c sample_bicubic argc num_threads image contour_map scaled_init
        grid_init).exit_code = some 1) ∧
    (¬ argc < 4 →
      (main c sample_bicubic argc num_threads image contour_map scaled_init
        grid_init).exit_code = some 0) := by
  unfold main
  by_cases ha : argc < 4
  · rw [if_pos ha]
    exact ⟨rfl, rfl, fun _ => rfl, fun hn => absurd ha hn⟩
  · have hT : num_threads = 0 := h.resolve_left ha
    subst hT
    rw [if_neg ha, if_neg (by decide)]
    show ((0 : Int).toNat = 0 ∧ _ ∧ _ ∧ _)
    rw [Int.toNat_zero, run_threads_zero]
    exact ⟨rfl, rfl, fun hn => absurd hn ha, fun _ => rfl⟩

/-- Witness of the amended C13: the three arguments and the thread count 0, on the all-white
4 x 4 source with 2 x 2 contour entries. -/
theorem main_usage_witness :
    ((4 : Nat) < 4 ∨ (0 : Int) = 0) ∧
    (main constants_4x4 corner_sampler 4 0 white_source_4x4 all_white_data.contour_map
        (fun _ => black) (fun _ => 255)).threads_created = 0 ∧
    (main constants_4x4 corner_sampler 4 0 white_source_4x4 all_white_data.contour_map
        (fun _ => black) (fun _ => 255)).output = [] ∧
    ((4 : Nat) < 4 →
      (main constants_4x4 corner_sampler 4 0 white_source_4x4 all_white_data.contour_map
        (fun _ => black) (fun _ => 255)).exit_code = some 1) ∧
    (¬ (4 : Nat) < 4 →
      (main constants_4x4 corner_sampler 4 0 white_source_4x4 all_white_data.contour_map
        (fun _ => black) (fun _ => 255)).exit_code = some 0) :=
  ⟨by decide,
    main_usage constants_4x4 corner_sampler 4 0 white_source_4x4 all_white_data.contour_map
      (fun _ => black) (fun _ => 255) (by decide)⟩

/-! ## Where the stamping phase writes -/

theorem mem_update_image_ops {tid Y : Nat} {contour : ppm_image} {x y : Nat}
    {w : store_op Nat ppm_pixel} (h : w ∈ update_image_ops tid Y contour x y) :
    ∃ a b, a < contour.x ∧ b < contour.y ∧ w.tid = tid ∧ w.key = (x + a) * Y + y + b ∧
      w.value = contour.data (contour.x * a + b) := by
  unfold update_image_ops at h
  simp only [List.mem_flatMap, List.mem_singleton] at h
  obtain ⟨a, ha, b, hb, rfl⟩ := h
  exact ⟨a, b, (mem_loop_range.mp ha).2, (mem_loop_range.mp hb).2, rfl, rfl, rfl⟩

/-- A store of worker `t` in the stamping phase hits a pixel `(r, c)` whose row lies in the
block row `i` of the worker's slice and whose column is below `q * step_y`, when the contour
entries are `step_x` by `step_y` blocks. -/
theorem mem_march_ops {T t : Nat} {d : thread_data} {grid : Nat × Nat → uchar} {Y : Nat}
    {w : store_op Nat ppm_pixel}
    (hdims : ∀ k, k < CONTOUR_CONFIG_COUNT →
      (d.contour_map k).x = d.step_x ∧ (d.contour_map k).y = d.step_y)
    (h : w ∈ march_ops (worker_data d t T) grid Y) :
    ∃ i r c, slice_start t d.p T ≤ i ∧ i < slice_end t d.p T ∧
      i * d.step_x ≤ r ∧ r < (i + 1) * d.step_x ∧ c < d.q * d.step_y ∧
      w.key = r * Y + c ∧ w.tid = t := by
  unfold march_ops march_row_ops cell_ops at h
  simp only [List.mem_flatMap, worker_data_thread_id, worker_data_num_threads, worker_data_p,
    worker_data_q, worker_data_contour_map, worker_data_step_x, worker_data_step_y] at h
  obtain ⟨i, hi, j, hj, hw⟩ := h
  by_cases hk : config_code grid i j < CONTOUR_CONFIG_COUNT
  case neg =>
    rw [if_neg hk] at hw
    cases hw
  rw [if_pos hk] at hw
  obtain ⟨a, b, ha, hb, htid, hkey, _⟩ := mem_update_image_ops hw
  rw [(hdims _ hk).1] at ha
  rw [(hdims _ hk).2] at hb
  have hj2 := (mem_loop_range.mp hj).2
  have hc : (j + 1) * d.step_y ≤ d.q * d.step_y := Nat.mul_le_mul_right _ hj2
  rw [Nat.add_mul, Nat.one_mul] at hc
  refine ⟨i, i * d.step_x + a, j * d.step_y + b, (mem_loop_range.mp hi).1,
    (mem_loop_range.mp hi).2, Nat.le_add_right _ _, ?_, by omega, ?_, htid⟩
  · rw [Nat.add_mul, Nat.one_mul]
    omega
  · rw [hkey]
    omega

theorem block_row_unique {sx i i' r : Nat} (h₁ : i * sx ≤ r) (h₂ : r < (i + 1) * sx)
    (h₁' : i' * sx ≤ r) (h₂' : r < (i' + 1) * sx) : i = i' := by
  rcases Nat.lt_trichotomy i i' with h | h | h
  · exfalso
    have := Nat.mul_le_mul_right sx (show i + 1 ≤ i' from h)
    omega
  · exact h
  · exfalso
    have := Nat.mul_le_mul_right sx (show i' + 1 ≤ i from h)
    omega

/-- Outside its band of rows and the columns below `q * step_y`, worker `t` stores nothing. -/
theorem march_ops_filter_outside (T t : Nat) (d : thread_data) (grid : Nat × Nat → uchar)
    (Y r c : Nat)
    (hdims : ∀ k, k < CONTOUR_CONFIG_COUNT →
      (d.contour_map k).x = d.step_x ∧ (d.contour_map k).y = d.step_y)
    (hfit : d.q * d.step_y ≤ Y) (hc : c < Y)
    (hout : ¬ (slice_start t d.p T * d.step_x ≤ r ∧ r < slice_end t d.p T * d.step_x ∧
      c < d.q * d.step_y)) :
    (march_ops (worker_data d t T) grid Y).filter (fun w => decide (w.key = r * Y + c)) = [] := by
  rw [List.filter_eq_nil_iff]
  intro w hw hkey
  simp only [decide_eq_true_eq] at hkey
  obtain ⟨i, r', c', hi₁, hi₂, hr₁, hr₂, hc', hk, _⟩ := mem_march_ops hdims hw
  rw [hk] at hkey
  obtain ⟨rfl, rfl⟩ := row_col_unique (by omega) hc hkey
  apply hout
  have e₁ := Nat.mul_le_mul_right d.step_x hi₁
  have e₂ := Nat.mul_le_mul_right d.step_x (show i + 1 ≤ slice_end t d.p T from hi₂)
  exact ⟨by omega, by omega, hc'⟩

/-- Two stores of the stamping phase that hit the same pixel are made by the same worker. -/
theorem march_phase_ops_same_writer (T : Nat) (d : thread_data) (grid : Nat × Nat → uchar)
    (Y : Nat) (hdims : ∀ k, k < CONTOUR_CONFIG_COUNT →
      (d.contour_map k).x = d.step_x ∧ (d.contour_map k).y = d.step_y)
    (hfit : d.q * d.step_y ≤ Y) (w₁ w₂ : store_op Nat ppm_pixel)
    (h₁ : w₁ ∈ march_phase_ops T d grid Y) (h₂ : w₂ ∈ march_phase_ops T d grid Y)
    (hk : w₁.key = w₂.key) : w₁.tid = w₂.tid := by
  unfold march_phase_ops at h₁ h₂
  simp only [List.mem_flatMap] at h₁ h₂
  obtain ⟨t₁, ht₁, hw₁⟩ := h₁
  obtain ⟨t₂, ht₂, hw₂⟩ := h₂
  obtain ⟨i₁, r₁, c₁, a₁, a₂, a₃, a₄, a₅, a₆, a₇⟩ := mem_march_ops hdims hw₁
  obtain ⟨i₂, r₂, c₂, b₁, b₂, b₃, b₄, b₅, b₆, b₇⟩ := mem_march_ops hdims hw₂
  rw [a₆, b₆] at hk
  obtain ⟨rfl, rfl⟩ := row_col_unique (show c₁ < Y by omega) (show c₂ < Y by omega) hk
  have hi : i₁ = i₂ := block_row_unique a₃ a₄ b₃ b₄
  subst hi
  rw [a₇, b₇]
  exact slice_disjoint d.p T (mem_loop_range.mp ht₁).2 (mem_loop_range.mp ht₂).2 a₁ a₂ b₁ b₂

theorem slice_bands_disjoint (N T sx : Nat) {t u r : Nat} (ht : t < T) (hu : u < T)
    (htu : t ≠ u)
    (h : (slice_start t N T * sx ≤ r ∧ r < slice_end t N T * sx) ∧
      (slice_start u N T * sx ≤ r ∧ r < slice_end u N T * sx)) : False := by
  obtain ⟨⟨h₁, h₂⟩, h₃, h₄⟩ := h
  rcases Nat.lt_or_gt_of_ne htu with hlt | hgt
  · have e := slice_end_eq_start_succ N T t (by omega)
    have m := Nat.mul_le_mul_right sx (slice_start_mono N T (show t + 1 ≤ u from hlt))
    rw [e] at h₂
    omega
  · have e := slice_end_eq_start_succ N T u (by omega)
    have m := Nat.mul_le_mul_right sx (slice_start_mono N T (show u + 1 ≤ t from hgt))
    rw [e] at h₄
    omega

/-- C15: with the 16 contour entries of `step_x` by `step_y` pixels that fit the row length
(`q * step_y ≤ y`), the stamping phase of worker `t` leaves unchanged, and does not write, every
working-image pixel `(r, c)` whose row is outside `[start_t * step_x, end_t * step_x)` or
whose column is outside `[0, q * step_y)`; the row bands of two distinct workers `t ≠ u` are
disjoint; and in the phase run by the `T` workers every pixel is written by at most one
worker (all the writers the phase adds to a pixel are the same worker). -/
theorem stamper_bands_disjoint (T : Nat) (d : thread_data) (s : state) (t u : Nat)
    (hdims : ∀ k, k < CONTOUR_CONFIG_COUNT →
      (d.contour_map k).x = d.step_x ∧ (d.contour_map k).y = d.step_y)
    (hfit : d.q * d.step_y ≤ s.scaled_image.y) (ht : t < T) (hu : u < T) (htu : t ≠ u) :
    (∀ r c, c < s.scaled_image.y →
      ¬ (slice_start t d.p T * d.step_x ≤ r ∧ r < slice_end t d.p T * d.step_x ∧
        c < d.q * d.step_y) →
      (march_worker (worker_data d t T) s).scaled_image.data.val (r * s.scaled_image.y + c) =
          s.scaled_image.data.val (r * s.scaled_image.y + c) ∧
        (march_worker (worker_data d t T) s).scaled_image.data.writers
            (r * s.scaled_image.y + c) =
          s.scaled_image.data.writers (r * s.scaled_image.y + c)) ∧
    (∀ r, ¬ ((slice_start t d.p T * d.step_x ≤ r ∧ r < slice_end t d.p T * d.step_x) ∧
      (slice_start u d.p T * d.step_x ≤ r ∧ r < slice_end u d.p T * d.step_x))) ∧
    (∀ k, ∃ new,
      (run_phase T march_worker d s).scaled_image.data.writers k =
          new ++ s.scaled_image.data.writers k ∧
        ∀ a ∈ new, ∀ b ∈ new, a = b) := by
  refine ⟨?_, ?_, ?_⟩
  · intro r c hc hout
    obtain ⟨ops, hsub, himg, _, _⟩ := march_worker_within (worker_data d t T) s
    rw [himg]
    refine apply_ops_of_filter_nil ops s.scaled_image.data _ ?_
    have hfull := march_ops_filter_outside T t d s.grid.val s.scaled_image.y r c hdims hfit hc
      hout
    rw [List.filter_eq_nil_iff] at hfull ⊢
    exact fun w hw => hfull w (hsub.subset hw)
  · intro r h
    exact slice_bands_disjoint d.p T d.step_x ht hu htu h
  · intro k
    obtain ⟨ops, hsub, himg, _, _⟩ := march_phase_within T d s
    rw [himg]
    refine ⟨_, apply_ops_writers ops s.scaled_image.data k, ?_⟩
    intro a ha b hb
    simp only [List.mem_reverse, List.mem_map, List.mem_filter, decide_eq_true_eq] at ha hb
    obtain ⟨w₁, ⟨hw₁, hk₁⟩, rfl⟩ := ha
    obtain ⟨w₂, ⟨hw₂, hk₂⟩, rfl⟩ := hb
    exact march_phase_ops_same_writer T d s.grid.val s.scaled_image.y hdims hfit w₁ w₂
      (hsub.subset hw₁) (hsub.subset hw₂) (hk₁.trans hk₂.symm)

/-- Witness of C15: the all-white scenario (2 x 2 contour entries, step 2, working image 4 x 4),
workers 0 and 1 of 2. -/
theorem stamper_bands_disjoint_witness :
    (∀ r c, c < all_white_sampled.scaled_image.y →
      ¬ (slice_start 0 all_white_data.p 2 * all_white_data.step_x ≤ r ∧
        r < slice_end 0 all_white_data.p 2 * all_white_data.step_x ∧
        c < all_white_data.q * all_white_data.step_y) →
      (march_worker (worker_data all_white_data 0 2) all_white_sampled).scaled_image.data.val
            (r * all_white_sampled.scaled_image.y + c) =
          all_white_sampled.scaled_image.data.val (r * all_white_sampled.scaled_image.y + c) ∧
        (march_worker (worker_data all_white_data 0 2) all_white_sampled).scaled_image.data.writers
            (r * all_white_sampled.scaled_image.y + c) =
          all_white_sampled.scaled_image.data.writers
            (r * all_white_sampled.scaled_image.y + c)) ∧
    (∀ r, ¬ ((slice_start 0 all_white_data.p 2 * all_white_data.step_x ≤ r ∧
        r < slice_end 0 all_white_data.p 2 * all_white_data.step_x) ∧
      (slice_start 1 all_white_data.p 2 * all_white_data.step_x ≤ r ∧
        r < slice_end 1 all_white_data.p 2 * all_white_data.step_x))) ∧
    (∀ k, ∃ new,
      (run_phase 2 march_worker all_white_data all_white_sampled).scaled_image.data.writers k =
          new ++ all_white_sampled.scaled_image.data.writers k ∧
        ∀ a ∈ new, ∀ b ∈ new, a = b) :=
  stamper_bands_disjoint 2 all_white_data all_white_sampled 0 1 (fun _ _ => ⟨rfl, rfl⟩)
    (by decide) (by decide) (by decide) (by decide)

/-! ## Coordinates handed to the sampler -/

theorem norm_coord_bounds {i n : Nat} (hn : 2 ≤ n) (hi : i < n) :
    0 ≤ norm_coord i n ∧ norm_coord i n ≤ 1 := by
  unfold norm_coord
  have hn' : (2 : ℚ) ≤ (n : ℚ) := by exact_mod_cast hn
  have hpos : (0 : ℚ) < (n : ℚ) - 1 := by linarith
  have hi' : (i : ℚ) + 1 ≤ (n : ℚ) := by exact_mod_cast hi
  constructor
  · exact div_nonneg (Nat.cast_nonneg i) (le_of_lt hpos)
  · rw [div_le_one hpos]
    linarith

theorem norm_coord_first (n : Nat) : norm_coord 0 n = 0 := by
  simp [norm_coord]

theorem norm_coord_last {n : Nat} (hn : 2 ≤ n) : norm_coord (n - 1) n = 1 := by
  unfold norm_coord
  have hn' : (2 : ℚ) ≤ (n : ℚ) := by exact_mod_cast hn
  rw [Nat.cast_sub (by omega : 1 ≤ n), Nat.cast_one]
  exact div_self (by linarith)

/-- The rescale loop of a worker only evaluates the sampler at normalized coordinates in
`[0, 1]`: two samplers that agree there give the same stores. -/
theorem rescale_ops_sampler_congr (c : constants)
    (sample_bicubic sample_bicubic' : ppm_image → ℚ → ℚ → ppm_pixel) (d : thread_data)
    (X Y : Nat) (hX : 2 ≤ X) (hY : 2 ≤ Y)
    (hagree : ∀ image u v, 0 ≤ u → u ≤ 1 → 0 ≤ v → v ≤ 1 →
      sample_bicubic image u v = sample_bicubic' image u v) :
    rescale_ops c sample_bicubic d X Y = rescale_ops c sample_bicubic' d X Y := by
  unfold rescale_ops
  by_cases hb : d.image.x > c.RESCALE_X ∨ d.image.y > c.RESCALE_Y
  · rw [if_pos hb, if_pos hb]
    apply List.flatMap_congr
    intro i hi
    have hiX : i < X := Nat.lt_of_lt_of_le (mem_loop_range.mp hi).2 (slice_end_le _ _ _)
    unfold rescale_row_ops
    apply List.flatMap_congr
    intro j hj
    have hjY : j < Y := (mem_loop_range.mp hj).2
    have hu := norm_coord_bounds hX hiX
    have hv := norm_coord_bounds hY hjY
    unfold norm_coord at hu hv
    rw [hagree d.image _ _ hu.1 hu.2 hv.1 hv.2]
  · rw [if_neg hb, if_neg hb]

/-- C16: for a working image of extents `x ≥ 2` and `y ≥ 2` and every target pixel `(i, j)` with
`i < x`, `j < y`, the coordinates `u = i / (x - 1)` and `v = j / (y - 1)` lie in `[0, 1]`, with
`u = 0` at `i = 0` and `u = 1` at `i = x - 1`; these are the coordinates at which the pixel
`(i, j)` is sampled when the rescale branch is taken, and the rescale loop of any worker
evaluates the sampler at coordinates in `[0, 1]` only (replacing the sampler by one that agrees
with it on `[0, 1]` changes nothing). -/
theorem sampler_coordinates_normalized (c : constants)
    (sample_bicubic : ppm_image → ℚ → ℚ → ppm_pixel) (T : Nat) (d : thread_data) (s : state)
    (i j : Nat) (hX : 2 ≤ s.scaled_image.x) (hY : 2 ≤ s.scaled_image.y)
    (hi : i < s.scaled_image.x) (hj : j < s.scaled_image.y) (hT : 1 ≤ T)
    (hb : d.image.x > c.RESCALE_X ∨ d.image.y > c.RESCALE_Y) :
    (0 ≤ norm_coord i s.scaled_image.x ∧ norm_coord i s.scaled_image.x ≤ 1) ∧
    (0 ≤ norm_coord j s.scaled_image.y ∧ norm_coord j s.scaled_image.y ≤ 1) ∧
    norm_coord 0 s.scaled_image.x = 0 ∧
    norm_coord (s.scaled_image.x - 1) s.scaled_image.x = 1 ∧
    (run_phase T (rescale_worker c sample_bicubic) d s).scaled_image.data.val
        (i * s.scaled_image.y + j) =
      sample_bicubic d.image (norm_coord i s.scaled_image.x) (norm_coord j s.scaled_image.y) ∧
    (∀ (sample_bicubic' : ppm_image → ℚ → ℚ → ppm_pixel) (t : Nat),
      (∀ image u v, 0 ≤ u → u ≤ 1 → 0 ≤ v → v ≤ 1 →
        sample_bicubic image u v = sample_bicubic' image u v) →
      rescale_worker c sample_bicubic (worker_data d t T) s =
        rescale_worker c sample_bicubic' (worker_data d t T) s) := by
  refine ⟨norm_coord_bounds hX hi, norm_coord_bounds hY hj, norm_coord_first _,
    norm_coord_last hX, ?_, ?_⟩
  · rw [rescale_phase_eq]
    exact (apply_ops_of_filter_single _ s.scaled_image.data _ _
      (rescale_phase_filter c sample_bicubic T d s.scaled_image.x s.scaled_image.y i j hT hb
        hi hj)).1
  · intro sample_bicubic' t hagree
    rw [rescale_worker_eq, rescale_worker_eq,
      rescale_ops_sampler_congr c sample_bicubic sample_bicubic' _ _ _ hX hY hagree]

/-- Witness of C16: a 3 x 3 source rescaled to 2 x 2 by two workers, at the pixel `(1, 1)`. -/
theorem sampler_coordinates_normalized_witness :
    (0 ≤ norm_coord 1 (state_2x2 white).scaled_image.x ∧
      norm_coord 1 (state_2x2 white).scaled_image.x ≤ 1) ∧
    (0 ≤ norm_coord 1 (state_2x2 white).scaled_image.y ∧
      norm_coord 1 (state_2x2 white).scaled_image.y ≤ 1) ∧
    norm_coord 0 (state_2x2 white).scaled_image.x = 0 ∧
    norm_coord ((state_2x2 white).scaled_image.x - 1) (state_2x2 white).scaled_image.x = 1 ∧
    (run_phase 2 (rescale_worker constants_2x2 corner_sampler) data_3x3_source
        (state_2x2 white)).scaled_image.data.val (1 * (state_2x2 white).scaled_image.y + 1) =
      corner_sampler data_3x3_source.image (norm_coord 1 (state_2x2 white).scaled_image.x)
        (norm_coord 1 (state_2x2 white).scaled_image.y) ∧
    (∀ (sample_bicubic' : ppm_image → ℚ → ℚ → ppm_pixel) (t : Nat),
      (∀ image u v, 0 ≤ u → u ≤ 1 → 0 ≤ v → v ≤ 1 →
        corner_sampler image u v = sample_bicubic' image u v) →
      rescale_worker constants_2x2 corner_sampler (worker_data data_3x3_source t 2)
          (state_2x2 white) =
        rescale_worker constants_2x2 sample_bicubic' (worker_data data_3x3_source t 2)
          (state_2x2 white)) :=
  sampler_coordinates_normalized constants_2x2 corner_sampler 2 data_3x3_source
    (state_2x2 white) 1 1 (by decide) (by decide) (by decide) (by decide) (by decide)
    (by decide)

/-! ## Static leader -/

theorem memcpy_eq (tid : Nat) (dst : buffer Nat ppm_pixel) (src : Nat → ppm_pixel) (n : Nat) :
    memcpy tid dst src n = apply_ops (memcpy_ops tid src n) dst := by
  unfold memcpy memcpy_ops
  simp only [store_eq_apply_ops, for_loop_apply_ops]

theorem rescale_worker_skip_leader (c : constants)
    (sample_bicubic : ppm_image → ℚ → ℚ → ppm_pixel) (T : Nat) (d : thread_data) (s : state)
    (hskip : ¬ (d.image.x > c.RESCALE_X ∨ d.image.y > c.RESCALE_Y)) :
    rescale_worker c sample_bicubic (worker_data d 0 T) s =
      s.with_data (memcpy 0 s.scaled_image.data d.image.data (d.image.x * d.image.y)) := by
  unfold rescale_worker
  simp only [worker_data_thread_id, worker_data_image, if_neg hskip, if_true]
  rfl

theorem rescale_worker_skip_other (c : constants)
    (sample_bicubic : ppm_image → ℚ → ℚ → ppm_pixel) (T t : Nat) (d : thread_data) (s : state)
    (hskip : ¬ (d.image.x > c.RESCALE_X ∨ d.image.y > c.RESCALE_Y)) (ht : t ≠ 0) :
    rescale_worker c sample_bicubic (worker_data d t T) s = s := by
  unfold rescale_worker
  simp only [worker_data_thread_id, worker_data_image, if_neg hskip, if_neg ht]

theorem write_worker_other (T t : Nat) (d : thread_data) (s : state) (ht : t ≠ 0) :
    write_worker (worker_data d t T) s = s := by
  unfold write_worker
  simp only [worker_data_thread_id, if_neg ht]

theorem write_worker_leader (T : Nat) (d : thread_data) (s : state) :
    (write_worker (worker_data d 0 T) s).output =
      s.output ++ [(0, { x := s.scaled_image.x, y := s.scaled_image.y,
                         data := s.scaled_image.data.val })] := by
  unfold write_worker
  simp only [worker_data_thread_id, if_true]

/-- C17: among the `T ≥ 1` workers, worker 0 alone performs the verbatim copy of the skip
branch (every worker with ordinal `≠ 0` leaves the state as it is, the whole phase is the one
`memcpy` of worker 0, and each copied location gets worker 0 as its single new writer), and
worker 0 alone hands the image to `write_ppm` (every worker with ordinal `≠ 0` leaves the state
as it is, and the phase adds exactly one call, made by worker 0). -/
theorem static_leader (c : constants) (sample_bicubic : ppm_image → ℚ → ℚ → ppm_pixel)
    (T : Nat) (d : thread_data) (s : state) (hT : 1 ≤ T)
    (hskip : ¬ (d.image.x > c.RESCALE_X ∨ d.image.y > c.RESCALE_Y)) :
    rescale_worker c sample_bicubic (worker_data d 0 T) s =
      s.with_data (memcpy 0 s.scaled_image.data d.image.data (d.image.x * d.image.y)) ∧
    (∀ t, t ≠ 0 → rescale_worker c sample_bicubic (worker_data d t T) s = s) ∧
    run_phase T (rescale_worker c sample_bicubic) d s =
      s.with_data (memcpy 0 s.scaled_image.data d.image.data (d.image.x * d.image.y)) ∧
    (∀ k, k < d.image.x * d.image.y →
      (run_phase T (rescale_worker c sample_bicubic) d s).scaled_image.data.writers k =
        0 :: s.scaled_image.data.writers k) ∧
    (write_worker (worker_data d 0 T) s).output =
      s.output ++ [(0, { x := s.scaled_image.x, y := s.scaled_image.y,
                         data := s.scaled_image.data.val })] ∧
    (∀ t, t ≠ 0 → write_worker (worker_data d t T) s = s) ∧
    (run_phase T write_worker d s).output =
      s.output ++ [(0, { x := s.scaled_image.x, y := s.scaled_image.y,
                         data := s.scaled_image.data.val })] := by
  refine ⟨rescale_worker_skip_leader c sample_bicubic T d s hskip,
    fun t ht => rescale_worker_skip_other c sample_bicubic T t d s hskip ht, ?_, ?_,
    write_worker_leader T d s, fun t ht => write_worker_other T t d s ht, ?_⟩
  · rw [rescale_phase_skip c sample_bicubic T hT d s hskip, memcpy_eq]
  · intro k hk
    rw [(rescale_phase_skip_pixel c sample_bicubic T hT d s hskip k).2, if_pos hk]
  · rw [write_phase_eq T hT]
    exact write_worker_leader T d s

/-- Witness of C17: the 2 x 2 source under the program's constants, three workers. -/
theorem static_leader_witness :
    (1 ≤ 3 ∧ ¬ (source_2x2.x > program_constants.RESCALE_X ∨
      source_2x2.y > program_constants.RESCALE_Y)) ∧
    (run_phase 3 write_worker
        (main_thread_data program_constants source_2x2 (fun _ => empty_image))
        (main_state program_constants (fun _ => white) (fun _ => 255))).output =
      (main_state program_constants (fun _ => white) (fun _ => 255)).output ++
        [(0, { x := (main_state program_constants (fun _ => white)
                      (fun _ => 255)).scaled_image.x,
               y := (main_state program_constants (fun _ => white)
                      (fun _ => 255)).scaled_image.y,
               data := (main_state program_constants (fun _ => white)
                      (fun _ => 255)).scaled_image.data.val })] :=
  ⟨by decide,
    (static_leader program_constants corner_sampler 3
      (main_thread_data program_constants source_2x2 (fun _ => empty_image))
      (main_state program_constants (fun _ => white) (fun _ => 255))
      (by decide) (by decide)).2.2.2.2.2.2⟩

/-! ## Validity of the atlas index -/

theorem program_white_state_pixel (k : Nat) :
    program_white_state.scaled_image.data.val k = white := rfl

theorem program_white_state_cell (k : Nat × Nat) : program_white_state.grid.val k = 255 := rfl

theorem program_data_p : program_data.p = 256 := by decide

theorem program_data_q : program_data.q = 256 := by decide

theorem threshold_white : threshold program_constants white = 0 := by decide

theorem program_white_cell_corner :
    (run_phase 4 (sample_worker program_constants) program_data program_white_state).grid.val
      (256, 256) = 255 := by
  have h := (sample_phase_other program_constants 4 program_data program_white_state
    program_data.p program_data.q (fun h => Nat.lt_irrefl _ h.1)
    (fun h => Nat.lt_irrefl _ h.2)).1
  rw [program_data_p, program_data_q, program_white_state_cell] at h
  exact h

/-- The code of the last cell `(p - 1, q - 1)` after the sampling phase: three corners are
classifications of pixels, the fourth is whatever `grid[p][q]` held before the phase. -/
theorem sample_phase_last_cell_code (c : constants) (T : Nat) (d : thread_data) (s : state)
    (i j : Nat) (hT : 1 ≤ T) (hi : i + 1 = d.p) (hj : j + 1 = d.q) :
    config_code (run_phase T (sample_worker c) d s).grid.val i j =
      (8 * (threshold c (s.scaled_image.data.val
            (i * d.step_x * s.scaled_image.y + j * d.step_y))).val
        + 4 * (threshold c (s.scaled_image.data.val
            (i * d.step_x * s.scaled_image.y + s.scaled_image.x - 1))).val
        + 2 * (s.grid.val (d.p, d.q)).val
        + 1 * (threshold c (s.scaled_image.data.val
            ((s.scaled_image.x - 1) * s.scaled_image.y + j * d.step_y))).val) % 256 := by
  have hi' : i < d.p := by omega
  have hj' : j < d.q := by omega
  unfold config_code
  rw [hi, hj, (sample_phase_interior c T d s i j hT hi' hj').1,
    (sample_phase_last_column c T d s i hT hi').1,
    (sample_phase_last_row c T d s j hT hj').1,
    (sample_phase_other c T d s d.p d.q (fun h => Nat.lt_irrefl _ h.1)
      (fun h => Nat.lt_irrefl _ h.2)).1]

/-- C18 fails on the code: with the program's constants (`p = q = 256`), a white working image
and grid cells holding the byte 255 before the sampling phase, the sampling phase run by four
workers leaves `grid[256][256]` untouched, so the code of the last cell `(255, 255)` is
`(8 * 0 + 4 * 0 + 2 * 255 + 0) % 256 = 254`, beyond the 16 entries of the contour map. -/
theorem atlas_index_out_of_range :
    (run_phase 4 (sample_worker program_constants) program_data program_white_state).grid.val
      (256, 256) = 255 ∧
    config_code
      (run_phase 4 (sample_worker program_constants) program_data program_white_state).grid.val
      255 255 = 254 ∧
    ¬ config_code
      (run_phase 4 (sample_worker program_constants) program_data program_white_state).grid.val
      255 255 < CONTOUR_CONFIG_COUNT := by
  have h := sample_phase_last_cell_code program_constants 4 program_data program_white_state
    255 255 (by decide) (by rw [program_data_p]) (by rw [program_data_q])
  simp only [program_white_state_pixel, threshold_white, program_white_state_cell] at h
  have hk : config_code
      (run_phase 4 (sample_worker program_constants) program_data program_white_state).grid.val
      255 255 = 254 := h.trans (by decide)
  refine ⟨program_white_cell_corner, hk, ?_⟩
  rw [hk]
  decide

/-! ## Partition-count independence: runs stopped by a read outside the contour map -/

theorem program_stamp_data_p : program_stamp_data.p = 256 := by decide

theorem program_stamp_data_q : program_stamp_data.q = 256 := by decide

/-- The rescale phase changes the pixels of the working image only. -/
theorem rescale_phase_frame (c : constants) (sample_bicubic : ppm_image → ℚ → ℚ → ppm_pixel)
    (T : Nat) (d : thread_data) (s : state) :
    (run_phase T (rescale_worker c sample_bicubic) d s).grid = s.grid ∧
      (run_phase T (rescale_worker c sample_bicubic) d s).output = s.output := by
  rw [rescale_phase_eq]
  exact ⟨rfl, rfl⟩

/-- A run in which, after the sampling phase, the code of some cell lies outside the contour map
is stopped in the stamping phase, whatever the number of workers: no image is handed to
`write_ppm`. -/
theorem run_threads_stopped (c : constants) (sample_bicubic : ppm_image → ℚ → ℚ → ppm_pixel)
    (T : Nat) (hT : 1 ≤ T) (d : thread_data) (s : state) (i j : Nat) (hi : i < d.p)
    (hj : j < d.q)
    (hk : ¬ config_code (run_phase T (sample_worker c) d
      (run_phase T (rescale_worker c sample_bicubic) d s)).grid.val i j < CONTOUR_CONFIG_COUNT) :
    (run_threads c sample_bicubic T d s).fault = true ∧
      (run_threads c sample_bicubic T d s).output = s.output := by
  have hf := march_phase_faults T hT d _ i j hi hj hk
  obtain ⟨_, _, _, _, ho⟩ := march_phase_within T d
    (run_phase T (sample_worker c) d (run_phase T (rescale_worker c sample_bicubic) d s))
  unfold run_threads
  simp only []
  rw [if_pos hf]
  refine ⟨hf, ?_⟩
  rw [ho, (sample_phase_scaled_image c T d _).2, (rescale_phase_frame c sample_bicubic T d s).2]

/-- With the program's constants, the white 4 x 4 source (the rescale is skipped), a white
working buffer and grid cells holding the byte 255 beforehand, the code of the last cell
`(255, 255)` after the first two phases is 254, whatever the number of workers. -/
theorem program_run_last_cell_code (T : Nat) (hT : 1 ≤ T) :
    config_code (run_phase T (sample_worker program_constants) program_stamp_data
      (run_phase T (rescale_worker program_constants corner_sampler) program_stamp_data
        program_white_state)).grid.val 255 255 = 254 := by
  have hb : ¬ (program_stamp_data.image.x > program_constants.RESCALE_X ∨
      program_stamp_data.image.y > program_constants.RESCALE_Y) := by decide
  have h := sample_phase_last_cell_code program_constants T program_stamp_data
    (run_phase T (rescale_worker program_constants corner_sampler) program_stamp_data
      program_white_state) 255 255 hT (by rw [program_stamp_data_p])
    (by rw [program_stamp_data_q])
  have hpix : ∀ k, (run_phase T (rescale_worker program_constants corner_sampler)
      program_stamp_data program_white_state).scaled_image.data.val k = white := by
    intro k
    rw [(rescale_phase_skip_pixel program_constants corner_sampler T hT program_stamp_data
      program_white_state hb k).1]
    by_cases hk : k < program_stamp_data.image.x * program_stamp_data.image.y
    · rw [if_pos hk]
      rfl
    · rw [if_neg hk]
      rfl
  have hgrid := (rescale_phase_frame program_constants corner_sampler T program_stamp_data
    program_white_state).1
  simp only [hpix, threshold_white, hgrid, program_white_state_cell] at h
  exact h.trans (by decide)

theorem program_run_stopped (T : Nat) (hT : 1 ≤ T) :
    (run_threads program_constants corner_sampler T program_stamp_data
      program_white_state).fault = true ∧
    (run_threads program_constants corner_sampler T program_stamp_data
      program_white_state).output = [] := by
  refine run_threads_stopped program_constants corner_sampler T hT program_stamp_data
    program_white_state 255 255 ?_ ?_ ?_
  · rw [program_stamp_data_p]
    decide
  · rw [program_stamp_data_q]
    decide
  · rw [program_run_last_cell_code T hT]
    decide

/-- C1 fails on the code, by the defect of C6.  With the program's constants (working image
2048 x 2048, step 8, contour entries of 8 x 8 pixels), the white 4 x 4 source, a white working
buffer and every grid cell holding the byte 255 before the run, `grid[256][256]` is never
written, the last cell `(255, 255)` gets the code 254 and line 169 reads `contour_map[254]`,
outside the 16 entries: with one worker and with two workers alike the run is stopped there and
no image is handed to `write_ppm`.  The same happens in the all-white scenario (`SIGMA = 200`,
step 2, target 4 x 4, white 4 x 4 source, sixteen 2 x 2 contour entries) with the byte 255 in
every grid cell beforehand: the last cell `(1, 1)` gets the code 254, the run is stopped with
one worker and with two, the block of the cell `(1, 1)` is not stamped and no image is handed
to `write_ppm`; with the byte 0 in the grid beforehand the same source gives a complete run
that stamps the entry 0 on that block. -/
theorem partition_run_stopped :
    ((run_threads program_constants corner_sampler 1 program_stamp_data
        program_white_state).fault = true ∧
      (run_threads program_constants corner_sampler 1 program_stamp_data
        program_white_state).output = []) ∧
    ((run_threads program_constants corner_sampler 2 program_stamp_data
        program_white_state).fault = true ∧
      (run_threads program_constants corner_sampler 2 program_stamp_data
        program_white_state).output = []) ∧
    config_code (run_phase 1 (sample_worker constants_4x4) all_white_data
      (run_phase 1 (rescale_worker constants_4x4 corner_sampler) all_white_data
        (main_state constants_4x4 (fun _ => black) (fun _ => 255)))).grid.val 1 1 = 254 ∧
    (atlas_entry all_white_data.contour_map 254).isNone = true ∧
    (run_threads constants_4x4 corner_sampler 1 all_white_data
      (main_state constants_4x4 (fun _ => black) (fun _ => 255))).fault = true ∧
    (run_threads constants_4x4 corner_sampler 1 all_white_data
      (main_state constants_4x4 (fun _ => black) (fun _ => 255))).output.length = 0 ∧
    (run_threads constants_4x4 corner_sampler 2 all_white_data
      (main_state constants_4x4 (fun _ => black) (fun _ => 255))).fault = true ∧
    (run_threads constants_4x4 corner_sampler 2 all_white_data
      (main_state constants_4x4 (fun _ => black) (fun _ => 255))).output.length = 0 ∧
    (run_threads constants_4x4 corner_sampler 2 all_white_data
      (main_state constants_4x4 (fun _ => black) (fun _ => 255))).scaled_image.data.val
        ((1 * 2 + 0) * 4 + (1 * 2 + 0)) = white ∧
    (run_threads constants_4x4 corner_sampler 2 all_white_data
      (main_state constants_4x4 (fun _ => black) (fun _ => 0))).fault = false ∧
    (run_threads constants_4x4 corner_sampler 2 all_white_data
      (main_state constants_4x4 (fun _ => black) (fun _ => 0))).output.length = 1 ∧
    (run_threads constants_4x4 corner_sampler 2 all_white_data
      (main_state constants_4x4 (fun _ => black) (fun _ => 0))).scaled_image.data.val
        ((1 * 2 + 0) * 4 + (1 * 2 + 0)) = grey 0 := by
  refine ⟨program_run_stopped 1 (by decide), program_run_stopped 2 (by decide), ?_⟩
  decide

/-! ## Array bounds -/

/-- The values the sampling stores of a worker carry are the classifications of the pixels at
`sample_read_indices`, in the same order. -/
theorem sample_ops_values (c : constants) (d : thread_data) (img : work_image) :
    (sample_ops c d img).map (fun w => w.value) =
      (sample_read_indices d img.x img.y).map (fun k => threshold c (img.data.val k)) := by
  unfold sample_ops sample_ops_interior sample_ops_last_column sample_ops_last_row
    sample_read_indices
  simp only [List.map_append, List.map_flatMap, List.map_cons, List.map_nil]

/-- The values the stores of `update_image` carry are the contour pixels at
`update_image_read_indices`, in the same order. -/
theorem update_image_ops_values (tid Y : Nat) (contour : ppm_image) (x y : Nat) :
    (update_image_ops tid Y contour x y).map (fun w => w.value) =
      (update_image_read_indices contour).map contour.data := by
  unfold update_image_ops update_image_read_indices
  simp only [List.map_flatMap, List.map_cons, List.map_nil]

/-- The code of a cell depends on the four cells of `config_code_cells` only. -/
theorem config_code_congr (g g' : Nat × Nat → uchar) (i j : Nat)
    (h : ∀ k ∈ config_code_cells i j, g k = g' k) : config_code g i j = config_code g' i j := by
  unfold config_code
  rw [h (i, j) (by simp [config_code_cells]), h (i, j + 1) (by simp [config_code_cells]),
    h (i + 1, j + 1) (by simp [config_code_cells]), h (i + 1, j) (by simp [config_code_cells])]

theorem row_col_lt {S r c : Nat} (hr : r < S) (hc : c < S) : r * S + c < S * S := by
  have h := Nat.mul_le_mul_right S (show r + 1 ≤ S from hr)
  rw [Nat.add_mul, Nat.one_mul] at h
  omega

theorem mem_sample_read_indices {d : thread_data} {X Y k : Nat}
    (h : k ∈ sample_read_indices d X Y) :
    (∃ i j, i < d.p ∧ j < d.q ∧ k = i * d.step_x * Y + j * d.step_y) ∨
    (∃ i, i < d.p ∧ k = i * d.step_x * Y + X - 1) ∨
    (∃ j, j < d.q ∧ k = (X - 1) * Y + j * d.step_y) := by
  unfold sample_read_indices at h
  simp only [List.mem_append, List.mem_flatMap, List.mem_singleton] at h
  rcases h with (⟨i, hi, j, hj, rfl⟩ | ⟨i, hi, rfl⟩) | ⟨j, hj, rfl⟩
  · exact Or.inl ⟨i, j, Nat.lt_of_lt_of_le (mem_loop_range.mp hi).2 (slice_end_le _ _ _),
      (mem_loop_range.mp hj).2, rfl⟩
  · exact Or.inr (Or.inl
      ⟨i, Nat.lt_of_lt_of_le (mem_loop_range.mp hi).2 (slice_end_le _ _ _), rfl⟩)
  · exact Or.inr (Or.inr
      ⟨j, Nat.lt_of_lt_of_le (mem_loop_range.mp hj).2 (slice_end_le _ _ _), rfl⟩)

theorem mem_sample_ops_key {c : constants} {d : thread_data} {img : work_image}
    {w : store_op (Nat × Nat) uchar} (h : w ∈ sample_ops c d img) :
    w.key.1 ≤ d.p ∧ w.key.2 ≤ d.q := by
  unfold sample_ops sample_ops_interior sample_ops_last_column sample_ops_last_row at h
  simp only [List.mem_append, List.mem_flatMap, List.mem_singleton] at h
  rcases h with (⟨i, hi, j, hj, rfl⟩ | ⟨i, hi, rfl⟩) | ⟨j, hj, rfl⟩
  · exact ⟨Nat.le_of_lt (Nat.lt_of_lt_of_le (mem_loop_range.mp hi).2 (slice_end_le _ _ _)),
      Nat.le_of_lt (mem_loop_range.mp hj).2⟩
  · exact ⟨Nat.le_of_lt (Nat.lt_of_lt_of_le (mem_loop_range.mp hi).2 (slice_end_le _ _ _)),
      Nat.le_refl _⟩
  · exact ⟨Nat.le_refl _,
      Nat.le_of_lt (Nat.lt_of_lt_of_le (mem_loop_range.mp hj).2 (slice_end_le _ _ _))⟩

theorem mem_march_grid_reads {d : thread_data} {cell : Nat × Nat}
    (h : cell ∈ march_grid_reads d) : cell.1 ≤ d.p ∧ cell.2 ≤ d.q := by
  unfold march_grid_reads config_code_cells at h
  simp only [List.mem_flatMap, List.mem_cons, List.mem_singleton, List.not_mem_nil,
    or_false] at h
  obtain ⟨i, hi, j, hj, hc⟩ := h
  have hi2 : i < d.p := Nat.lt_of_lt_of_le (mem_loop_range.mp hi).2 (slice_end_le _ _ _)
  have hj2 : j < d.q := (mem_loop_range.mp hj).2
  rcases hc with rfl | rfl | rfl | rfl <;> exact ⟨by simp only; omega, by simp only; omega⟩

theorem mem_update_image_read_indices {contour : ppm_image} {m : Nat}
    (h : m ∈ update_image_read_indices contour) :
    m < contour.x * contour.x ∨ contour.y > contour.x := by
  unfold update_image_read_indices at h
  simp only [List.mem_flatMap, List.mem_singleton] at h
  obtain ⟨i, hi, j, hj, rfl⟩ := h
  by_cases hy : contour.y > contour.x
  · exact Or.inr hy
  · left
    have hi2 := (mem_loop_range.mp hi).2
    have hj2 := (mem_loop_range.mp hj).2
    have h := Nat.mul_le_mul_left contour.x (show i + 1 ≤ contour.x from hi2)
    rw [Nat.mul_add, Nat.mul_one] at h
    omega

theorem block_index_lt {S Step P i a : Nat} (hS : P * Step = S) (hi : i < P) (ha : a < Step) :
    i * Step + a < S := by
  have h := Nat.mul_le_mul_right Step (show i + 1 ≤ P from hi)
  rw [Nat.add_mul, Nat.one_mul] at h
  omega

/-- The accesses made through entries of the contour map are in bounds.  For a square `S x S`
working image (`S = RESCALE_X = RESCALE_Y`) with `S` a positive multiple of `STEP`, the grid
extents `p = q = S / STEP` that `main` computes and the 16 contour entries of `STEP x STEP`
pixels: every working-image index read by the sampling phase and every working-image index
the stamping phase stores to through an entry of the contour map is below `S * S`, every index
of such an entry read by `update_image` is below `STEP * STEP`, every grid cell written by the
sampling phase and every grid cell read by the stamping phase has row `≤ p` and column `≤ q`,
and in the skip branch (source extents `≤ S`) every location written by the copy is below
`S * S`.  The lookup `contour_map[k]` itself is not covered: see `march_phase_faults`. -/
theorem atlas_accesses_in_bounds (c : constants) (image : ppm_image)
    (contour_map : Nat → ppm_image) (hsq : c.RESCALE_X = c.RESCALE_Y) (hstep : 0 < c.STEP)
    (hpos : 0 < c.RESCALE_X) (hdvd : c.STEP ∣ c.RESCALE_X)
    (hdims : ∀ k, k < CONTOUR_CONFIG_COUNT →
      (contour_map k).x = c.STEP ∧ (contour_map k).y = c.STEP) :
    (∀ T t k, k ∈ sample_read_indices (worker_data (main_thread_data c image contour_map) t T)
        c.RESCALE_X c.RESCALE_Y → k < c.RESCALE_X * c.RESCALE_Y) ∧
    (∀ T grid w, w ∈ march_phase_ops T (main_thread_data c image contour_map) grid c.RESCALE_Y →
      w.key < c.RESCALE_X * c.RESCALE_Y) ∧
    (∀ k m, k < CONTOUR_CONFIG_COUNT → m ∈ update_image_read_indices (contour_map k) →
      m < c.STEP * c.STEP) ∧
    (∀ T img w, w ∈ sample_phase_ops c T (main_thread_data c image contour_map) img →
      w.key.1 ≤ (main_thread_data c image contour_map).p ∧
      w.key.2 ≤ (main_thread_data c image contour_map).q) ∧
    (∀ T t cell, cell ∈ march_grid_reads (worker_data (main_thread_data c image contour_map) t T) →
      cell.1 ≤ (main_thread_data c image contour_map).p ∧
      cell.2 ≤ (main_thread_data c image contour_map).q) ∧
    (image.x ≤ c.RESCALE_X → image.y ≤ c.RESCALE_Y →
      ∀ w, w ∈ memcpy_ops 0 image.data (image.x * image.y) →
        w.key < c.RESCALE_X * c.RESCALE_Y) := by
  have hP : c.RESCALE_X / c.STEP * c.STEP = c.RESCALE_X := Nat.div_mul_cancel hdvd
  have hQ : c.RESCALE_Y / c.STEP * c.STEP = c.RESCALE_X := by rw [← hsq]; exact hP
  refine ⟨?_, ?_, ?_, ?_, ?_, ?_⟩
  · intro T t k hk
    rw [← hsq]
    rw [← hsq] at hk
    rcases mem_sample_read_indices hk with ⟨i, j, hi, hj, rfl⟩ | ⟨i, hi, rfl⟩ | ⟨j, hj, rfl⟩
    · have hi' : i * c.STEP + 0 < c.RESCALE_X := block_index_lt hP hi hstep
      have hj' : j * c.STEP + 0 < c.RESCALE_X := block_index_lt hQ hj hstep
      exact row_col_lt (by simpa using hi') (by simpa using hj')
    · have hi' : i * c.STEP + 0 < c.RESCALE_X := block_index_lt hP hi hstep
      have h := row_col_lt (S := c.RESCALE_X) (by simpa using hi')
        (show c.RESCALE_X - 1 < c.RESCALE_X by omega)
      show i * c.STEP * c.RESCALE_X + c.RESCALE_X - 1 < c.RESCALE_X * c.RESCALE_X
      omega
    · have hj' : j * c.STEP + 0 < c.RESCALE_X := block_index_lt hQ hj hstep
      exact row_col_lt (show c.RESCALE_X - 1 < c.RESCALE_X by omega) (by simpa using hj')
  · intro T grid w hw
    unfold march_phase_ops at hw
    simp only [List.mem_flatMap] at hw
    obtain ⟨t, _, hw⟩ := hw
    obtain ⟨i, r, col, _, hi₂, _, hr₂, hc, hkey, _⟩ :=
      mem_march_ops (d := main_thread_data c image contour_map) hdims hw
    have hi : i < c.RESCALE_X / c.STEP := Nat.lt_of_lt_of_le hi₂ (slice_end_le _ _ _)
    have hr : r < c.RESCALE_X := by
      have h := Nat.mul_le_mul_right c.STEP (show i + 1 ≤ c.RESCALE_X / c.STEP from hi)
      have hr₂' : r < (i + 1) * c.STEP := hr₂
      omega
    have hc' : col < c.RESCALE_X := by
      have hc₂ : col < c.RESCALE_Y / c.STEP * c.STEP := hc
      omega
    rw [hkey, ← hsq]
    exact row_col_lt hr hc'
  · intro k m hk hm
    rcases mem_update_image_read_indices hm with h | h
    · rw [(hdims k hk).1] at h
      exact h
    · rw [(hdims k hk).1, (hdims k hk).2] at h
      exact absurd h (Nat.lt_irrefl _)
  · intro T img w hw
    unfold sample_phase_ops at hw
    simp only [List.mem_flatMap] at hw
    obtain ⟨t, _, hw⟩ := hw
    exact mem_sample_ops_key (d := worker_data (main_thread_data c image contour_map) t T) hw
  · intro T t cell hcell
    exact mem_march_grid_reads (d := worker_data (main_thread_data c image contour_map) t T)
      hcell
  · intro hx hy w hw
    unfold memcpy_ops at hw
    simp only [List.mem_flatMap, List.mem_singleton] at hw
    obtain ⟨k, hk, rfl⟩ := hw
    exact Nat.lt_of_lt_of_le (mem_loop_range.mp hk).2 (Nat.mul_le_mul hx hy)

/-- C19 fails on the code, by the defect of C6.  With the program's constants (`S = 2048`,
step 8, `p = q = 256`, contour entries of 8 x 8 pixels), a white working image and grid cells
holding the byte 255 before the sampling phase, `grid[256][256]` is never written, the stamping
phase run by four workers computes the code 254 for the last cell `(255, 255)` and line 169
reads `contour_map[254]`, outside the 16 entries of the array: the run is stopped by an access
out of bounds.  What such a read yields is no entry of the contour map; were it an image of
3 x 3 pixels in the all-white 4 x 4 scenario (step 2), `update_image` called by worker 1 for
the last cell `(1, 1)` would store at the indices 16, 18, 19 and 20 of the working buffer, which
has `4 * 4` pixels. -/
theorem stamping_leaves_contour_map :
    (atlas_entry program_stamp_data.contour_map
      (config_code (run_phase 4 (sample_worker program_constants) program_stamp_data
        program_white_state).grid.val 255 255)).isNone = true ∧
    (run_phase 4 march_worker program_stamp_data
      (run_phase 4 (sample_worker program_constants) program_stamp_data
        program_white_state)).fault = true ∧
    ((update_image_ops 1 all_white_sampled.scaled_image.y stray_entry_3x3 (1 * 2) (1 * 2)).map
        (fun w => w.key)).filter
      (fun k => decide (constants_4x4.RESCALE_X * constants_4x4.RESCALE_Y ≤ k)) =
        [16, 18, 19, 20] ∧
    ((update_image 1 all_white_sampled.scaled_image stray_entry_3x3 (1 * 2)
        (1 * 2)).data.writers 16 = [1] ∧
      (update_image 1 all_white_sampled.scaled_image stray_entry_3x3 (1 * 2)
        (1 * 2)).data.writers 20 = [1]) := by
  have h := sample_phase_last_cell_code program_constants 4 program_stamp_data
    program_white_state 255 255 (by decide) (by rw [program_stamp_data_p])
    (by rw [program_stamp_data_q])
  simp only [program_white_state_pixel, threshold_white, program_white_state_cell] at h
  have hk : config_code
      (run_phase 4 (sample_worker program_constants) program_stamp_data
        program_white_state).grid.val 255 255 = 254 := h.trans (by decide)
  refine ⟨?_, ?_, by decide, by decide⟩
  · rw [hk]
    decide
  · refine march_phase_faults 4 (by decide) program_stamp_data _ 255 255 ?_ ?_ ?_
    · rw [program_stamp_data_p]
      decide
    · rw [program_stamp_data_q]
      decide
    · rw [hk]
      decide

end MarchingSquares
